import Mathlib

/-
Verification of the neuralstark-mini RAG backend (Python) against its
natural-language specification, via a shallow embedding in Lean 4.

Modelling conventions:
- Python strings are modelled as `List Char` (`PyStr`), so that every string
  operation is a structural, kernel-computable Lean function.  Character
  classes (`isalpha`, `isdigit`, `\w`) are modelled over ASCII.
- Python floats are modelled as `ℚ`.
- Metadata dictionaries are modelled as a record `PyMeta` of optional fields,
  one per key the embedded code reads or writes; `dict.get(k, d)` becomes
  `Option.getD`.
- External collaborators (the cross-encoder model, the spaCy/regex entity
  extraction, the BM25 scoring library, the vector store, the spell checker,
  WordNet, the LLM client) are parameters of the embedded functions, exactly
  at the call boundary where the Python code invokes them.
- Fallible code returns `Except`; a raised Python exception is an `.error`.
-/

/-! ## Python string primitives (over `List Char`) -/

/-- Characters of a Python string. -/
abbrev PyStr := List Char

/-- Python `s.lower()` (ASCII model). -/
def pyLower (s : PyStr) : PyStr := s.map Char.toLower

/-- Python `s.upper()` (ASCII model). -/
def pyUpperStr (s : PyStr) : PyStr := s.map Char.toUpper

/-- Python `s.capitalize()`: first character upper-cased, the rest lower-cased. -/
def pyCapitalize : PyStr → PyStr
  | [] => []
  | c :: t => c.toUpper :: t.map Char.toLower

/-- Python substring test `pat in hay`. -/
def pyContains (pat : PyStr) : PyStr → Bool
  | [] => pat.isEmpty
  | c :: rest => pat.isPrefixOf (c :: rest) || pyContains pat rest

/-- Python `hay.find(pat)`, with `none` standing for the sentinel `-1`. -/
def strFind (pat : PyStr) : PyStr → Option Nat
  | [] => if pat.isEmpty then some 0 else none
  | c :: rest =>
    if pat.isPrefixOf (c :: rest) then some 0
    else (strFind pat rest).map (· + 1)

/-- Python `s.strip()` with no argument: drop whitespace from both ends. -/
def pyStrip (s : PyStr) : PyStr :=
  ((s.dropWhile Char.isWhitespace).reverse.dropWhile Char.isWhitespace).reverse

/-- Helper for `pySplitWS`: accumulate the current word (reversed). -/
def pySplitWSAux : PyStr → PyStr → List PyStr
  | [], acc => if acc.isEmpty then [] else [acc.reverse]
  | c :: rest, acc =>
    if c.isWhitespace then
      if acc.isEmpty then pySplitWSAux rest [] else acc.reverse :: pySplitWSAux rest []
    else pySplitWSAux rest (c :: acc)

/-- Python `s.split()` with no argument: split on whitespace runs, no empty parts. -/
def pySplitWS (s : PyStr) : List PyStr := pySplitWSAux s []

/-- Python `' '.join(ws)`. -/
def joinSpace (ws : List PyStr) : PyStr := (ws.intersperse [' ']).flatten

/-- Python `str.isdigit()` (ASCII model). -/
def pyIsDigitStr (w : PyStr) : Bool := !w.isEmpty && w.all Char.isDigit

/-- Python `str.isalpha()` (ASCII model). -/
def pyIsAlphaStr (w : PyStr) : Bool := !w.isEmpty && w.all Char.isAlpha

/-- Python `str.isupper()`: at least one cased character and no lower-case one
(ASCII model). -/
def pyIsUpperStr (w : PyStr) : Bool :=
  w.any (fun c => c.isUpper || c.isLower) && w.all (fun c => !c.isLower)

/-- Python `int(x)` floor for rationals: `⌊q⌋` computed with integer floor
division, kernel-computable. -/
def pyFloor (q : ℚ) : ℤ := q.num.fdiv q.den

/-! ## Metadata dictionaries -/

/-- The metadata dictionary attached to a chunk, with one optional field per
key that the embedded code reads or writes (`src/backend` passes metadata as
Python dicts). -/
structure PyMeta where
  source : Option String
  chunk_index : Option Nat
  relevance_score : Option ℚ
  distance : Option ℚ
  bm25_score : Option ℚ
  rrf_score : Option ℚ
  reranker_score : Option ℚ
  camembert_score : Option ℚ
  retrieval_method : Option String
  original_rank : Option Nat
  reranked_position : Option Nat
  dense_rank : Option Nat
  sparse_rank : Option Nat
  reranker_model : Option String
deriving DecidableEq

/-- A metadata dictionary with no keys set. -/
def PyMeta.empty : PyMeta :=
  ⟨none, none, none, none, none, none, none, none, none, none, none, none, none, none⟩

/-! ## Entity extractor (`src/backend/entity_extractor.py`)

`extract_entities` runs external engines (the Python `re` module over the
French-specific patterns, plus optional spaCy NER); it is modelled as a
parameter `extract : PyStr → List (List PyStr)` returning, per category in
iteration order, the ordered deduplicated entity list — exactly the shape
`extract_entities` produces (`Dict[str, List[str]]` values in insertion
order). -/

namespace EntityExtractor

/-- `find_exact_matches(query, text)` from `entity_extractor.py` lines
132-150: for each query entity (flattened across categories), record it with
the position of its first lower-cased occurrence in `text.lower()`, skipping
entities that do not occur. -/
def find_exact_matches (extract : PyStr → List (List PyStr)) (query text : PyStr) :
    List (PyStr × Nat) :=
  let query_entities := extract query
  let text_lower := pyLower text
  query_entities.flatten.filterMap
    (fun ent => (strFind (pyLower ent) text_lower).map (fun pos => (ent, pos)))

/-- `compute_entity_overlap(query, text)` from `entity_extractor.py` lines
152-178: the fraction of flattened query entities occurring (case-insensitively)
as substrings of `text`; `0.0` when the query has no entities. -/
def compute_entity_overlap (extract : PyStr → List (List PyStr))
    (query text : PyStr) : ℚ :=
  let all_query_entities := (extract query).flatten
  if all_query_entities.isEmpty then 0
  else
    let text_lower := pyLower text
    let nMatches := all_query_entities.countP (fun e => pyContains (pyLower e) text_lower)
    (nMatches : ℚ) / (all_query_entities.length : ℚ)

end EntityExtractor

/-! ## Claim C6 -/

/-- Claim C6: for all inputs, `compute_entity_overlap` returns a value in
`[0, 1]` equal to the fraction of the query entities (flattened across
categories) that occur as case-insensitive substrings of the text, and exactly
`0` when the query has no extractable entities.  Quantified over every
possible extraction result. -/
theorem compute_entity_overlap_bounds (extract : PyStr → List (List PyStr))
    (query text : PyStr) :
    0 ≤ EntityExtractor.compute_entity_overlap extract query text ∧
    EntityExtractor.compute_entity_overlap extract query text ≤ 1 ∧
    ((extract query).flatten = [] →
      EntityExtractor.compute_entity_overlap extract query text = 0) ∧
    ((extract query).flatten ≠ [] →
      EntityExtractor.compute_entity_overlap extract query text =
        ((extract query).flatten.countP
            (fun e => pyContains (pyLower e) (pyLower text)) : ℚ) /
          ((extract query).flatten.length : ℚ)) := by
  have hdef : EntityExtractor.compute_entity_overlap extract query text =
      if ((extract query).flatten).isEmpty then (0 : ℚ) else
        (((extract query).flatten.countP
            (fun e => pyContains (pyLower e) (pyLower text))) : ℚ) /
          ((extract query).flatten.length : ℚ) := rfl
  by_cases h : (extract query).flatten.isEmpty
  · have h0 : (extract query).flatten = [] := by
      simpa [List.isEmpty_iff] using h
    rw [hdef, if_pos h]
    exact ⟨le_refl 0, zero_le_one, fun _ => rfl, fun hne => absurd h0 hne⟩
  · have hne : (extract query).flatten ≠ [] := by
      simpa [List.isEmpty_iff] using h
    have hlenpos : 0 < ((extract query).flatten.length : ℚ) := by
      have : 0 < (extract query).flatten.length := List.length_pos.mpr hne
      exact_mod_cast this
    have hcount : ((extract query).flatten.countP
        (fun e => pyContains (pyLower e) (pyLower text)) : ℚ) ≤
        ((extract query).flatten.length : ℚ) := by
      exact_mod_cast List.countP_le_length _
    rw [hdef, if_neg h]
    refine ⟨?_, ?_, fun h0 => absurd h0 hne, fun _ => rfl⟩
    · exact div_nonneg (by positivity) (le_of_lt hlenpos)
    · exact div_le_one_of_le₀ hcount (le_of_lt hlenpos)

/-- Witness for C6 at a concrete input: the trivial extractor produces no
entities, and the overlap there is exactly zero. -/
theorem compute_entity_overlap_bounds_witness :
    ((fun _ : PyStr => ([] : List (List PyStr))) "x".toList).flatten = ([] : List PyStr) ∧
    EntityExtractor.compute_entity_overlap (fun _ => []) "x".toList "y".toList = 0 := by
  refine ⟨rfl, ?_⟩
  exact (compute_entity_overlap_bounds (fun _ => []) "x".toList "y".toList).2.2.1 rfl

/-! ## Reranker (`src/backend/reranker_optimized.py`, `src/backend/reranker.py`)

The cross-encoder is an external model; its observable behaviours at the call
boundary are: the model failed to load (`self.model is None`), inference
raises, or inference returns one score per `[query, doc]` pair. -/

/-- Observable state of the external cross-encoder model. -/
inductive EncoderState
  | unavailable
  | failing
  | working (score : PyStr → PyStr → ℚ)

/-- `np.percentile(l, p)` with the default linear interpolation:
`h = p/100 * (n-1)`, result `s[⌊h⌋] + (h - ⌊h⌋) * (s[⌊h⌋+1] - s[⌊h⌋])` over
the ascending sort `s` (index clamped at `n-1`).  Only invoked on non-empty
lists with `0 ≤ p ≤ 100` by the embedded code. -/
def npPercentile (l : List ℚ) (p : ℚ) : ℚ :=
  let s := List.insertionSort (fun a b : ℚ => a ≤ b) l
  let n := s.length
  let h := p / 100 * ((n : ℚ) - 1)
  let i := (pyFloor h).toNat
  let lo := s.getD i 0
  let hi := s.getD (min (i + 1) (n - 1)) 0
  lo + (h - (i : ℚ)) * (hi - lo)

namespace RerankerOptimized

/-- `meta.get('reranker_score', 0.0)`. -/
def scoreOf (m : PyMeta) : ℚ := m.reranker_score.getD 0

/-- `compute_dynamic_threshold` from `reranker_optimized.py` lines 143-160:
the requested percentile of the scores, `0.5` on empty input. -/
def compute_dynamic_threshold (scores : List ℚ) (percentile : ℚ) : ℚ :=
  if scores.isEmpty then 1 / 2 else npPercentile scores percentile

/-- `filter_by_confidence` from `reranker_optimized.py` lines 162-206: keep
the documents whose reranker score is at least the threshold, where the
threshold is the 20th-percentile dynamic threshold when
`use_dynamic_threshold` is set (and scores exist), else `min_score`. -/
def filter_by_confidence (documents : List PyStr) (metadata : List PyMeta)
    (min_score : ℚ) (use_dynamic_threshold : Bool) : List PyStr × List PyMeta :=
  if documents.isEmpty then ([], [])
  else
    let scores := metadata.map scoreOf
    let threshold :=
      if use_dynamic_threshold && !scores.isEmpty then
        compute_dynamic_threshold scores 20
      else min_score
    let kept := ((documents.zip metadata).zip scores).filter
      (fun x => decide (threshold ≤ x.2))
    (kept.map (fun x => x.1.1), kept.map (fun x => x.1.2))

/-- One document with its pre-boost (`cam`) and final (`fin`) scores and its
0-based original index, as computed inside `rerank`. -/
structure REntry where
  idx : Nat
  doc : PyStr
  meta : PyMeta
  cam : ℚ
  fin : ℚ
deriving DecidableEq

/-- The exact-match boost from `reranker_optimized.py` lines 98-111:
`entity_overlap * 2` (when positive) plus `min(len(exact_matches) * 0.5, 3)`
(when any match exists). -/
def boostFor (extract : PyStr → List (List PyStr)) (query doc : PyStr) : ℚ :=
  let entity_overlap := EntityExtractor.compute_entity_overlap extract query doc
  let exact_matches := EntityExtractor.find_exact_matches extract query doc
  (if 0 < entity_overlap then entity_overlap * 2 else 0) +
    (if exact_matches.isEmpty then 0 else min ((exact_matches.length : ℚ) * (1 / 2)) 3)

/-- Scores of `rerank` steps 1-2: CamemBERT score per document, plus the boost
added when `enable_exact_match_boost` holds and the boost is positive. -/
def rerankEntries (score : PyStr → PyStr → ℚ) (extract : PyStr → List (List PyStr))
    (query : PyStr) (documents : List PyStr) (metadata : List PyMeta)
    (enable_exact_match_boost : Bool) : List REntry :=
  (documents.zip metadata).enum.map (fun p =>
    let c := score query p.2.1
    let b := if enable_exact_match_boost then boostFor extract query p.2.1 else 0
    ⟨p.1, p.2.1, p.2.2,
     c, if enable_exact_match_boost && decide (0 < b) then c + b else c⟩)

instance : DecidableRel (fun a b : REntry => b.fin ≤ a.fin) :=
  fun a b => inferInstanceAs (Decidable (b.fin ≤ a.fin))

/-- `rerank` from `reranker_optimized.py` lines 54-141.  Sorting descending by
final score models `np.argsort(final_scores)[::-1]`.  When the model is
unavailable or inference raises, the input order truncated to `top_k` is
returned (lines 75-77 and 138-141). -/
def rerank (enc : EncoderState) (extract : PyStr → List (List PyStr))
    (model_name : String) (query : PyStr) (documents : List PyStr)
    (metadata : List PyMeta) (top_k : Nat) (enable_exact_match_boost : Bool) :
    List PyStr × List PyMeta :=
  match enc with
  | .unavailable => (documents.take top_k, metadata.take top_k)
  | .failing =>
    if documents.isEmpty then ([], [])
    else (documents.take top_k, metadata.take top_k)
  | .working score =>
    if documents.isEmpty then ([], [])
    else
      let sorted := (List.insertionSort (fun a b : REntry => b.fin ≤ a.fin)
        (rerankEntries score extract query documents metadata
          enable_exact_match_boost)).take top_k
      let withPos := sorted.enum
      (withPos.map (fun p => p.2.doc),
       withPos.map (fun p =>
        { p.2.meta with
          reranker_score := some p.2.fin
          camembert_score := some p.2.cam
          original_rank := some (p.2.idx + 1)
          reranked_position := some (p.1 + 1)
          reranker_model := some model_name }))

end RerankerOptimized

namespace Reranker

/-- `compute_dynamic_threshold` from `reranker.py` lines 85-102 (fallback
`0.3` on empty input). -/
def compute_dynamic_threshold (scores : List ℚ) (percentile : ℚ) : ℚ :=
  if scores.isEmpty then 3 / 10 else npPercentile scores percentile

/-- `filter_by_confidence` from `reranker.py` lines 104-132: keep documents
scoring at least `min_score`. -/
def filter_by_confidence (documents : List PyStr) (metadata : List PyMeta)
    (min_score : ℚ) : List PyStr × List PyMeta :=
  let kept := (documents.zip metadata).filter
    (fun dm => decide (min_score ≤ RerankerOptimized.scoreOf dm.2))
  (kept.map (fun dm => dm.1), kept.map (fun dm => dm.2))

/-- `rerank` from `reranker.py` lines 29-83: like the optimized variant but
with no boost and fewer metadata fields. -/
def rerank (enc : EncoderState) (query : PyStr) (documents : List PyStr)
    (metadata : List PyMeta) (top_k : Nat) : List PyStr × List PyMeta :=
  match enc with
  | .unavailable => (documents.take top_k, metadata.take top_k)
  | .failing =>
    if documents.isEmpty then ([], [])
    else (documents.take top_k, metadata.take top_k)
  | .working score =>
    if documents.isEmpty then ([], [])
    else
      let sorted := (List.insertionSort
        (fun a b : RerankerOptimized.REntry => b.fin ≤ a.fin)
        ((documents.zip metadata).enum.map (fun p =>
          let c := score query p.2.1
          (⟨p.1, p.2.1, p.2.2, c, c⟩ : RerankerOptimized.REntry)))).take top_k
      let withPos := sorted.enum
      (withPos.map (fun p => p.2.doc),
       withPos.map (fun p =>
        { p.2.meta with
          reranker_score := some p.2.fin
          original_rank := some (p.2.idx + 1)
          reranked_position := some (p.1 + 1) }))

end Reranker

/-! ## Claims C1, C4, C7 -/

/-- The threshold `filter_by_confidence` actually applies: the dynamic
20th-percentile threshold when `use_dynamic_threshold` is set and candidates
exist (in that case `min_score` is ignored), otherwise `min_score`. -/
def effectiveThreshold (metadata : List PyMeta) (min_score : ℚ)
    (use_dynamic_threshold : Bool) : ℚ :=
  if use_dynamic_threshold && !metadata.isEmpty then
    RerankerOptimized.compute_dynamic_threshold
      (metadata.map RerankerOptimized.scoreOf) 20
  else min_score

/-- Filtering the zip of candidate pairs with the scores extracted from the
same metadata list, then re-zipping the projections, filters the candidate
pairs by their own score. -/
theorem filter_zip_aux (t : ℚ) :
    ∀ (ds : List PyStr) (ms : List PyMeta), ds.length = ms.length →
      (((((ds.zip ms).zip (ms.map RerankerOptimized.scoreOf)).filter
          (fun x => decide (t ≤ x.2))).map (fun x => x.1.1)).zip
        ((((ds.zip ms).zip (ms.map RerankerOptimized.scoreOf)).filter
          (fun x => decide (t ≤ x.2))).map (fun x => x.1.2))) =
      (ds.zip ms).filter (fun dm => decide (t ≤ RerankerOptimized.scoreOf dm.2))
  | [], [], _ => rfl
  | [], _ :: _, h => by simp at h
  | _ :: _, [], h => by simp at h
  | d :: ds, m :: ms, h => by
    have h' : ds.length = ms.length := by simpa using h
    have ih := filter_zip_aux t ds ms h'
    by_cases hc : t ≤ RerankerOptimized.scoreOf m <;>
      simp [List.filter_cons, hc, ih]

/-- Claim C1 (amended): `filter_by_confidence` keeps exactly the candidates
whose reranker score is at least the effective threshold, where the effective
threshold is the dynamic 20th-percentile threshold alone whenever
`use_dynamic_threshold` is set and candidates exist — `min_score` is ignored
in that case — and `min_score` otherwise. -/
theorem filter_by_confidence_effective (documents : List PyStr)
    (metadata : List PyMeta) (min_score : ℚ) (use_dynamic_threshold : Bool)
    (hl : documents.length = metadata.length) :
    (RerankerOptimized.filter_by_confidence documents metadata min_score
        use_dynamic_threshold).1.zip
      (RerankerOptimized.filter_by_confidence documents metadata min_score
        use_dynamic_threshold).2 =
    (documents.zip metadata).filter (fun dm =>
      decide (effectiveThreshold metadata min_score use_dynamic_threshold ≤
        RerankerOptimized.scoreOf dm.2)) := by
  have hts : (if use_dynamic_threshold &&
        !(metadata.map RerankerOptimized.scoreOf).isEmpty then
      RerankerOptimized.compute_dynamic_threshold
        (metadata.map RerankerOptimized.scoreOf) 20
    else min_score) = effectiveThreshold metadata min_score use_dynamic_threshold := by
    cases metadata <;> simp [effectiveThreshold]
  by_cases hd : documents.isEmpty
  · have hde : documents = [] := by simpa [List.isEmpty_iff] using hd
    simp [RerankerOptimized.filter_by_confidence, hde]
  · have hdne : ¬documents.isEmpty = true := by simpa using hd
    unfold RerankerOptimized.filter_by_confidence
    rw [if_neg hdne]
    simp only [hts]
    exact filter_zip_aux _ documents metadata hl

/-- Witness for C1 (amended) at concrete input: two candidates, one below the
dynamic threshold. -/
theorem filter_by_confidence_effective_witness :
    ([(['a'] : PyStr)] : List PyStr).length =
      ([{ PyMeta.empty with reranker_score := some 0 }] : List PyMeta).length ∧
    (RerankerOptimized.filter_by_confidence [['a']]
        [{ PyMeta.empty with reranker_score := some 0 }] 1 true).1.zip
      (RerankerOptimized.filter_by_confidence [['a']]
        [{ PyMeta.empty with reranker_score := some 0 }] 1 true).2 =
    ([(['a'], { PyMeta.empty with reranker_score := some 0 })].filter (fun dm =>
      decide (effectiveThreshold [{ PyMeta.empty with reranker_score := some 0 }] 1 true ≤
        RerankerOptimized.scoreOf dm.2))) :=
  ⟨rfl, filter_by_confidence_effective [['a']]
    [{ PyMeta.empty with reranker_score := some 0 }] 1 true rfl⟩

/-- Counterexample to Claim C1 as stated: with `min_score = 1`,
`use_dynamic_threshold = true` and a single candidate scoring `0`, the claimed
effective threshold `max(min_score, dynamic) = 1` is strictly above the
candidate score, yet the candidate is kept — `min_score` is ignored whenever
the dynamic threshold is in use. -/
theorem filter_by_confidence_claim_counterexample :
    RerankerOptimized.filter_by_confidence [['a']]
        [{ PyMeta.empty with reranker_score := some 0 }] 1 true =
      ([['a']], [{ PyMeta.empty with reranker_score := some 0 }]) ∧
    RerankerOptimized.scoreOf { PyMeta.empty with reranker_score := some 0 } <
      max 1 (RerankerOptimized.compute_dynamic_threshold
        ([{ PyMeta.empty with reranker_score := some 0 }].map
          RerankerOptimized.scoreOf) 20) := by
  constructor
  · norm_num [RerankerOptimized.filter_by_confidence,
      RerankerOptimized.compute_dynamic_threshold, npPercentile,
      RerankerOptimized.scoreOf, pyFloor, Int.fdiv,
      List.insertionSort, List.orderedInsert, PyMeta.empty]
  · norm_num [RerankerOptimized.compute_dynamic_threshold, npPercentile,
      RerankerOptimized.scoreOf, pyFloor, Int.fdiv,
      List.insertionSort, List.orderedInsert, PyMeta.empty]

/-- Claim C4: when the cross-encoder is unavailable or raises at inference
time, both rerankers return the inputs in original order truncated to
`top_k` (total functions: nothing is raised to the caller). -/
theorem rerank_degraded_truncates (extract : PyStr → List (List PyStr))
    (model_name : String) (query : PyStr) (documents : List PyStr)
    (metadata : List PyMeta) (top_k : Nat) (boost : Bool)
    (hl : documents.length = metadata.length) :
    RerankerOptimized.rerank .unavailable extract model_name query documents
        metadata top_k boost = (documents.take top_k, metadata.take top_k) ∧
    RerankerOptimized.rerank .failing extract model_name query documents
        metadata top_k boost = (documents.take top_k, metadata.take top_k) ∧
    Reranker.rerank .unavailable query documents metadata top_k =
      (documents.take top_k, metadata.take top_k) ∧
    Reranker.rerank .failing query documents metadata top_k =
      (documents.take top_k, metadata.take top_k) := by
  have hm : documents = [] → metadata = [] := fun he => by
    rw [he] at hl
    exact (List.length_eq_zero.mp hl.symm)
  refine ⟨rfl, ?_, rfl, ?_⟩ <;> cases hcd : documents with
  | nil => simp [RerankerOptimized.rerank, Reranker.rerank, hm hcd]
  | cons d ds => simp [RerankerOptimized.rerank, Reranker.rerank]

/-- Witness for C4 at a concrete input. -/
theorem rerank_degraded_truncates_witness :
    ([(['a'] : PyStr)] : List PyStr).length = ([PyMeta.empty] : List PyMeta).length ∧
    RerankerOptimized.rerank .failing (fun _ => []) "m" ['q'] [['a']]
      [PyMeta.empty] 1 true = ([['a']], [PyMeta.empty]) :=
  ⟨rfl, (rerank_degraded_truncates (fun _ => []) "m" ['q'] [['a']]
    [PyMeta.empty] 1 true rfl).2.1⟩

/-- The entity overlap fraction is never negative. -/
theorem entity_overlap_nonneg (extract : PyStr → List (List PyStr))
    (query text : PyStr) :
    0 ≤ EntityExtractor.compute_entity_overlap extract query text := by
  simp only [EntityExtractor.compute_entity_overlap]
  split
  · exact le_refl 0
  · positivity

/-- The exact-match boost is never negative. -/
theorem boostFor_nonneg (extract : PyStr → List (List PyStr))
    (query doc : PyStr) : 0 ≤ RerankerOptimized.boostFor extract query doc := by
  unfold RerankerOptimized.boostFor
  refine add_nonneg ?_ ?_
  · split
    · have := entity_overlap_nonneg extract query doc
      linarith
    · exact le_refl 0
  · split
    · exact le_refl 0
    · refine le_min (by positivity) (by norm_num)

/-- The exact-match boost equals `overlap * 2 + min(matches * 0.5, 3)`
unconditionally: the two guards in the Python code only skip adding zero. -/
theorem boostFor_eq (extract : PyStr → List (List PyStr)) (query doc : PyStr) :
    RerankerOptimized.boostFor extract query doc =
      EntityExtractor.compute_entity_overlap extract query doc * 2 +
        min (((EntityExtractor.find_exact_matches extract query doc).length : ℚ) *
          (1 / 2)) 3 := by
  have hov : (if 0 < EntityExtractor.compute_entity_overlap extract query doc then
      EntityExtractor.compute_entity_overlap extract query doc * 2 else 0) =
      EntityExtractor.compute_entity_overlap extract query doc * 2 := by
    split
    · rfl
    · next h =>
      have h0 : EntityExtractor.compute_entity_overlap extract query doc = 0 :=
        le_antisymm (not_lt.mp h) (entity_overlap_nonneg extract query doc)
      rw [h0]
      norm_num
  have hmm : (if (EntityExtractor.find_exact_matches extract query doc).isEmpty then
      (0 : ℚ) else
      min (((EntityExtractor.find_exact_matches extract query doc).length : ℚ) *
        (1 / 2)) 3) =
      min (((EntityExtractor.find_exact_matches extract query doc).length : ℚ) *
        (1 / 2)) 3 := by
    split
    · next h =>
      have h0 : EntityExtractor.find_exact_matches extract query doc = [] := by
        simpa [List.isEmpty_iff] using h
      rw [h0]
      norm_num
    · rfl
  calc RerankerOptimized.boostFor extract query doc
      = (if 0 < EntityExtractor.compute_entity_overlap extract query doc then
          EntityExtractor.compute_entity_overlap extract query doc * 2 else 0) +
        (if (EntityExtractor.find_exact_matches extract query doc).isEmpty then
          (0 : ℚ) else
          min (((EntityExtractor.find_exact_matches extract query doc).length : ℚ) *
            (1 / 2)) 3) := rfl
    _ = _ := by rw [hov, hmm]

/-- A pair drawn from `l.enumFrom n` has its second component in `l`. -/
theorem pair_mem_enumFrom {α : Type} :
    ∀ (l : List α) (n : Nat) (p : Nat × α), p ∈ l.enumFrom n → p.2 ∈ l
  | [], _, _, h => by simp at h
  | a :: t, n, p, h => by
    rcases List.mem_cons.mp h with he | hr
    · rw [he]
      exact List.mem_cons_self a t
    · exact List.mem_cons_of_mem a (pair_mem_enumFrom t (n + 1) p hr)

/-- A pair drawn from `l.enum` has its second component in `l`. -/
theorem pair_mem_enum {α : Type} {l : List α} {p : Nat × α}
    (h : p ∈ l.enum) : p.2 ∈ l :=
  pair_mem_enumFrom l 0 p h

/-- An element of the zip of two maps over the same list comes from one
element of that list. -/
theorem mem_zipped_maps {α β γ : Type} {l : List α} (f : α → β) (g : α → γ)
    {x : β × γ} (h : x ∈ (l.map f).zip (l.map g)) : ∃ a ∈ l, x = (f a, g a) := by
  rw [List.zip_map'] at h
  obtain ⟨a, ha, he⟩ := List.mem_map.mp h
  exact ⟨a, ha, he.symm⟩

/-- Every entry built by `rerankEntries` with boosting on has its pre-boost
score equal to the encoder score of its document and its final score equal to
that plus the exact-match boost formula. -/
theorem rerankEntries_spec (score : PyStr → PyStr → ℚ)
    (extract : PyStr → List (List PyStr)) (query : PyStr)
    (documents : List PyStr) (metadata : List PyMeta) :
    ∀ e ∈ RerankerOptimized.rerankEntries score extract query documents metadata true,
      e.cam = score query e.doc ∧
      e.fin = score query e.doc +
        (EntityExtractor.compute_entity_overlap extract query e.doc * 2 +
          min (((EntityExtractor.find_exact_matches extract query e.doc).length : ℚ) *
            (1 / 2)) 3) := by
  intro e he
  unfold RerankerOptimized.rerankEntries at he
  obtain ⟨q, _, hqe⟩ := List.mem_map.mp he
  rw [← hqe]
  refine ⟨rfl, ?_⟩
  show (if true && decide (0 < RerankerOptimized.boostFor extract query q.2.1) then
      score query q.2.1 + RerankerOptimized.boostFor extract query q.2.1
    else score query q.2.1) = _
  by_cases hb : 0 < RerankerOptimized.boostFor extract query q.2.1
  · rw [if_pos (by simp [hb]), boostFor_eq]
  · have hb0 : RerankerOptimized.boostFor extract query q.2.1 = 0 :=
      le_antisymm (not_lt.mp hb) (boostFor_nonneg extract query q.2.1)
    rw [if_neg (by simp [hb])]
    have hf := boostFor_eq extract query q.2.1
    rw [hb0] at hf
    rw [← hf, add_zero]

/-- Claim C7: with exact-match boosting enabled and a working encoder, every
returned candidate carries `reranker_score = camembert + overlap * 2 +
min(len(exact_matches) * 0.5, 3)` for its own document text, with the
pre-boost score in `camembert_score`. -/
theorem rerank_exact_match_boost (score : PyStr → PyStr → ℚ)
    (extract : PyStr → List (List PyStr)) (model_name : String)
    (query : PyStr) (documents : List PyStr) (metadata : List PyMeta)
    (top_k : Nat) :
    ∀ dm ∈ (RerankerOptimized.rerank (.working score) extract model_name query
        documents metadata top_k true).1.zip
      (RerankerOptimized.rerank (.working score) extract model_name query
        documents metadata top_k true).2,
      dm.2.camembert_score = some (score query dm.1) ∧
      dm.2.reranker_score = some (score query dm.1 +
        (EntityExtractor.compute_entity_overlap extract query dm.1 * 2 +
          min (((EntityExtractor.find_exact_matches extract query dm.1).length : ℚ) *
            (1 / 2)) 3)) := by
  intro dm hdm
  cases documents with
  | nil => simp [RerankerOptimized.rerank] at hdm
  | cons d0 ds =>
    have hdm' : dm ∈ (((List.insertionSort
          (fun a b : RerankerOptimized.REntry => b.fin ≤ a.fin)
          (RerankerOptimized.rerankEntries score extract query (d0 :: ds)
            metadata true)).take top_k).enum.map (fun p => p.2.doc)).zip
        (((List.insertionSort
          (fun a b : RerankerOptimized.REntry => b.fin ≤ a.fin)
          (RerankerOptimized.rerankEntries score extract query (d0 :: ds)
            metadata true)).take top_k).enum.map (fun p =>
          { p.2.meta with
            reranker_score := some p.2.fin,
            camembert_score := some p.2.cam,
            original_rank := some (p.2.idx + 1),
            reranked_position := some (p.1 + 1),
            reranker_model := some model_name })) := by exact hdm
    obtain ⟨p, hp, hpe⟩ := mem_zipped_maps _ _ hdm'
    have hmem : p.2 ∈ RerankerOptimized.rerankEntries score extract query
        (d0 :: ds) metadata true :=
      (List.mem_insertionSort _).mp ((List.take_sublist _ _).subset (pair_mem_enum hp))
    have hspec := rerankEntries_spec score extract query (d0 :: ds) metadata p.2 hmem
    rw [hpe]
    constructor
    · show some p.2.cam = some (score query p.2.doc)
      rw [hspec.1]
    · show some p.2.fin = some (score query p.2.doc +
        (EntityExtractor.compute_entity_overlap extract query p.2.doc * 2 +
          min (((EntityExtractor.find_exact_matches extract query p.2.doc).length : ℚ) *
            (1 / 2)) 3))
      rw [hspec.2]

/-- Witness for C7 at a concrete input: one document, trivial scorer and
extractor. -/
theorem rerank_exact_match_boost_witness :
    ((['a'] : PyStr), ({ PyMeta.empty with
        reranker_score := some 0, camembert_score := some 0,
        original_rank := some 1, reranked_position := some 1,
        reranker_model := some "m" } : PyMeta)) ∈
      (RerankerOptimized.rerank (.working (fun _ _ => 0)) (fun _ => []) "m"
          ['q'] [['a']] [PyMeta.empty] 1 true).1.zip
        (RerankerOptimized.rerank (.working (fun _ _ => 0)) (fun _ => []) "m"
          ['q'] [['a']] [PyMeta.empty] 1 true).2 ∧
    ({ PyMeta.empty with
        reranker_score := some 0, camembert_score := some 0,
        original_rank := some 1, reranked_position := some 1,
        reranker_model := some "m" } : PyMeta).camembert_score =
      some ((fun _ _ => (0 : ℚ)) ['q'] ['a']) := by
  have hmem : ((['a'] : PyStr), ({ PyMeta.empty with
      reranker_score := some 0, camembert_score := some 0,
      original_rank := some 1, reranked_position := some 1,
      reranker_model := some "m" } : PyMeta)) ∈
      (RerankerOptimized.rerank (.working (fun _ _ => 0)) (fun _ => []) "m"
          ['q'] [['a']] [PyMeta.empty] 1 true).1.zip
        (RerankerOptimized.rerank (.working (fun _ _ => 0)) (fun _ => []) "m"
          ['q'] [['a']] [PyMeta.empty] 1 true).2 := by
    norm_num [RerankerOptimized.rerank, RerankerOptimized.rerankEntries,
      RerankerOptimized.boostFor, EntityExtractor.compute_entity_overlap,
      EntityExtractor.find_exact_matches, List.insertionSort,
      List.orderedInsert, List.enum, List.enumFrom, PyMeta.empty]
  exact ⟨hmem, (rerank_exact_match_boost (fun _ _ => 0) (fun _ => []) "m"
    ['q'] [['a']] [PyMeta.empty] 1 _ hmem).1⟩

/-! ## Hybrid retriever (`src/backend/hybrid_retriever.py`)

The BM25 scoring itself is the external `rank_bm25` library; the embedded
`search_sparse` takes the `get_scores` result (one score per indexed chunk)
as a parameter.  `np.argsort` does not specify tie order (quicksort); it is
modelled deterministically as a descending sort of the indices. -/

namespace HybridRetriever

/-- Model of `np.argsort(scores)[::-1]`: indices in descending score order. -/
def argsortDesc (scores : List ℚ) : List Nat :=
  @List.insertionSort Nat (fun i j => scores.getD j 0 ≤ scores.getD i 0)
    (fun i j => inferInstanceAs (Decidable (scores.getD j 0 ≤ scores.getD i 0)))
    (List.range scores.length)

/-- `search_sparse` from `hybrid_retriever.py` lines 35-64: take the top
`min(n_results, len(scores))` indices by descending BM25 score, drop those
with non-positive score, and return the corresponding documents, metadata
(with `bm25_score` set) and scores.  `hasIndex` models `self.bm25_index`
being set. -/
def search_sparse (hasIndex : Bool) (corpus_texts : List PyStr)
    (corpus_metadata : List PyMeta) (scores : List ℚ) (n_results : Nat) :
    List PyStr × List PyMeta × List ℚ :=
  if !hasIndex || corpus_texts.isEmpty then ([], [], [])
  else
    let n := min n_results scores.length
    let top_indices := ((argsortDesc scores).take n).filter
      (fun idx => decide (0 < scores.getD idx 0))
    let documents := top_indices.map (fun idx => corpus_texts.getD idx [])
    let metadatas := top_indices.map (fun idx =>
      { corpus_metadata.getD idx PyMeta.empty with
        bm25_score := some (scores.getD idx 0) })
    let bm25_scores := top_indices.map (fun idx => scores.getD idx 0)
    (documents, metadatas, bm25_scores)

end HybridRetriever

/-! ## Claim C5 -/

/-- Claim C5: `search_sparse` returns at most the requested number of chunks,
and every returned chunk has a strictly positive BM25 score (in the returned
score list and in the attached metadata); zero or negative scoring chunks are
dropped even when fewer than `n_results` remain. -/
theorem search_sparse_topk_positive (hasIndex : Bool) (corpus_texts : List PyStr)
    (corpus_metadata : List PyMeta) (scores : List ℚ) (n_results : Nat) :
    (HybridRetriever.search_sparse hasIndex corpus_texts corpus_metadata scores
        n_results).1.length ≤ n_results ∧
    (∀ s ∈ (HybridRetriever.search_sparse hasIndex corpus_texts corpus_metadata
        scores n_results).2.2, 0 < s) ∧
    (∀ m ∈ (HybridRetriever.search_sparse hasIndex corpus_texts corpus_metadata
        scores n_results).2.1, ∃ s, m.bm25_score = some s ∧ 0 < s) := by
  by_cases hg : (!hasIndex || corpus_texts.isEmpty) = true
  · have hrw : HybridRetriever.search_sparse hasIndex corpus_texts
        corpus_metadata scores n_results = ([], [], []) := by
      unfold HybridRetriever.search_sparse
      rw [if_pos hg]
    rw [hrw]
    exact ⟨by simp, by simp, by simp⟩
  · have hrw : HybridRetriever.search_sparse hasIndex corpus_texts
        corpus_metadata scores n_results =
      ((((HybridRetriever.argsortDesc scores).take (min n_results scores.length)).filter
          (fun idx => decide (0 < scores.getD idx 0))).map
          (fun idx => corpus_texts.getD idx []),
       (((HybridRetriever.argsortDesc scores).take (min n_results scores.length)).filter
          (fun idx => decide (0 < scores.getD idx 0))).map
          (fun idx => { corpus_metadata.getD idx PyMeta.empty with
            bm25_score := some (scores.getD idx 0) }),
       (((HybridRetriever.argsortDesc scores).take (min n_results scores.length)).filter
          (fun idx => decide (0 < scores.getD idx 0))).map
          (fun idx => scores.getD idx 0)) := by
      unfold HybridRetriever.search_sparse
      rw [if_neg hg]
    rw [hrw]
    refine ⟨?_, ?_, ?_⟩
    · rw [List.length_map]
      refine le_trans (List.length_filter_le _ _) ?_
      rw [List.length_take]
      exact le_trans (min_le_left _ _) (min_le_left _ _)
    · intro s hs
      obtain ⟨idx, hidx, he⟩ := List.mem_map.mp hs
      rw [← he]
      exact of_decide_eq_true (List.mem_filter.mp hidx).2
    · intro m hm
      obtain ⟨idx, hidx, he⟩ := List.mem_map.mp hm
      refine ⟨scores.getD idx 0, ?_,
        of_decide_eq_true (List.mem_filter.mp hidx).2⟩
      rw [← he]

/-- Witness for C5 at a concrete input: one indexed chunk scoring 1. -/
theorem search_sparse_topk_positive_witness :
    (1 : ℚ) ∈ (HybridRetriever.search_sparse true [['a']] [PyMeta.empty]
      [1] 1).2.2 ∧ (0 : ℚ) < 1 := by
  have hmem : (1 : ℚ) ∈ (HybridRetriever.search_sparse true [['a']]
      [PyMeta.empty] [1] 1).2.2 := by
    norm_num [HybridRetriever.search_sparse, HybridRetriever.argsortDesc,
      List.insertionSort, List.orderedInsert, List.range, List.range.loop]
  exact ⟨hmem, (search_sparse_topk_positive true [['a']] [PyMeta.empty]
    [1] 1).2.1 1 hmem⟩

/-! ## Reciprocal rank fusion (`src/backend/hybrid_retriever.py` lines 66-128)

The Python code accumulates `rrf_scores` in a dict keyed by the first 100
characters of the document text (insertion-ordered) and finally applies the
stable `sorted(..., reverse=True)`.  The dict is modelled as an association
list in insertion order; the stable descending sort is modelled with
`List.insertionSort` on the relation `b.score ≤ a.score`, which places
earlier-inserted entries first among ties exactly like Python's stable sort. -/

/-- Chunk identity for fusion: the first 100 characters (`doc[:100]`). -/
def docKey (d : PyStr) : PyStr := d.take 100

/-- One entry of the insertion-ordered `rrf_scores` / `doc_to_meta` pair of
dicts: key, document of first occurrence, its (rank-annotated) metadata and
the accumulated RRF score. -/
structure RRFEntry where
  key : PyStr
  doc : PyStr
  meta : PyMeta
  score : ℚ
deriving DecidableEq

/-- Processing one retrieved `(doc, meta)` at a given rank: create the entry
with score 0 on first sight, then add `1/(k + rank)` and set the rank field
on the stored metadata (`upd`). -/
def rrfAdd (entries : List RRFEntry) (doc : PyStr) (m : PyMeta) (c : ℚ)
    (upd : PyMeta → PyMeta) : List RRFEntry :=
  match entries with
  | [] => [⟨docKey doc, doc, upd m, c⟩]
  | e :: rest =>
    if e.key = docKey doc then ⟨e.key, e.doc, upd e.meta, e.score + c⟩ :: rest
    else e :: rrfAdd rest doc m c upd

/-- One pass of `reciprocal_rank_fusion` over a result list, with 1-indexed
ranks. -/
def rrfPass (setRank : Nat → PyMeta → PyMeta) (k : Nat) :
    List RRFEntry → List (PyStr × PyMeta) → Nat → List RRFEntry
  | entries, [], _ => entries
  | entries, (d, m) :: rest, rank =>
    rrfPass setRank k (rrfAdd entries d m (1 / ((k : ℚ) + (rank : ℚ))) (setRank rank))
      rest (rank + 1)

/-- `meta['dense_rank'] = rank`. -/
def setDenseRank (rank : Nat) (m : PyMeta) : PyMeta := { m with dense_rank := some rank }

/-- `meta['sparse_rank'] = rank`. -/
def setSparseRank (rank : Nat) (m : PyMeta) : PyMeta := { m with sparse_rank := some rank }

instance : DecidableRel (fun a b : RRFEntry => b.score ≤ a.score) :=
  fun a b => inferInstanceAs (Decidable (b.score ≤ a.score))

/-- The fused entries, sorted by RRF score descending (stable) and truncated
to `n_results`. -/
def rrfRanked (dense sparse : List (PyStr × PyMeta)) (k n_results : Nat) :
    List RRFEntry :=
  (List.insertionSort (fun a b : RRFEntry => b.score ≤ a.score)
    (rrfPass setSparseRank k (rrfPass setDenseRank k [] dense 1) sparse 1)).take
    n_results

/-- `reciprocal_rank_fusion` from `hybrid_retriever.py` lines 66-128: the
final documents and metadata (with `rrf_score` and
`retrieval_method = 'hybrid'` set). -/
def reciprocal_rank_fusion (dense_docs : List PyStr) (dense_metadata : List PyMeta)
    (sparse_docs : List PyStr) (sparse_metadata : List PyMeta)
    (k n_results : Nat) : List PyStr × List PyMeta :=
  let top := rrfRanked (dense_docs.zip dense_metadata)
    (sparse_docs.zip sparse_metadata) k n_results
  (top.map (fun e => e.doc),
   top.map (fun e => { e.meta with
     rrf_score := some e.score, retrieval_method := some "hybrid" }))

/-- The contribution of one result list to a chunk key, in the words of the
specification: `1/(k + r)` where `r` is the 1-indexed rank of the first
document whose key matches, `0` when the key is absent. -/
def rankContrib (k : Nat) : Nat → List PyStr → PyStr → ℚ
  | _, [], _ => 0
  | rank, d :: rest, key =>
    if docKey d = key then 1 / ((k : ℚ) + (rank : ℚ))
    else rankContrib k (rank + 1) rest key

/-- The accumulated contribution of a result list to a chunk key, summed over
every occurrence (this is what the dict accumulation computes). -/
def listContrib (k : Nat) : Nat → List PyStr → PyStr → ℚ
  | _, [], _ => 0
  | rank, d :: rest, key =>
    (if docKey d = key then 1 / ((k : ℚ) + (rank : ℚ)) else 0) +
      listContrib k (rank + 1) rest key

/-- The score stored for a key in the entry list (0 when absent). -/
def rrfLookup (entries : List RRFEntry) (key : PyStr) : ℚ :=
  match entries.find? (fun e => decide (e.key = key)) with
  | some e => e.score
  | none => 0

/-- The keys of the entry list. -/
def rrfKeys (entries : List RRFEntry) : List PyStr := entries.map (fun e => e.key)

theorem rrfLookup_rrfAdd (doc : PyStr) (m : PyMeta) (c : ℚ) (upd : PyMeta → PyMeta)
    (key : PyStr) : ∀ (entries : List RRFEntry),
    rrfLookup (rrfAdd entries doc m c upd) key =
      rrfLookup entries key + (if docKey doc = key then c else 0)
  | [] => by
    by_cases hq : docKey doc = key <;>
      simp [rrfAdd, rrfLookup, hq]
  | e :: rest => by
    by_cases hk : e.key = docKey doc
    · by_cases hq : e.key = key
      · have hdq : docKey doc = key := by rw [← hk, hq]
        simp [rrfAdd, rrfLookup, hk, hq, hdq]
      · have hdq : ¬docKey doc = key := by rw [← hk]; exact hq
        simp [rrfAdd, rrfLookup, hk, hq, hdq]
    · by_cases hq : e.key = key
      · have hdq : ¬docKey doc = key := fun h => hk (hq.trans h.symm)
        have hk2 : ¬key = docKey doc := by rw [← hq]; exact hk
        simp [rrfAdd, rrfLookup, hk, hk2, hq, hdq]
      · have ih := rrfLookup_rrfAdd doc m c upd key rest
        simp [rrfAdd, rrfLookup, hk, hq] at ih ⊢
        exact ih

theorem rrfLookup_rrfPass (setRank : Nat → PyMeta → PyMeta) (k : Nat) (key : PyStr) :
    ∀ (pairs : List (PyStr × PyMeta)) (entries : List RRFEntry) (rank : Nat),
    rrfLookup (rrfPass setRank k entries pairs rank) key =
      rrfLookup entries key + listContrib k rank (pairs.map (fun p => p.1)) key
  | [], entries, rank => by simp [rrfPass, listContrib]
  | (d, m) :: rest, entries, rank => by
    have ih := rrfLookup_rrfPass setRank k key rest
      (rrfAdd entries d m (1 / ((k : ℚ) + (rank : ℚ))) (setRank rank)) (rank + 1)
    rw [rrfPass, ih, rrfLookup_rrfAdd]
    simp only [List.map_cons, listContrib]
    ring

theorem rrfKeys_rrfAdd_sub (doc : PyStr) (m : PyMeta) (c : ℚ)
    (upd : PyMeta → PyMeta) (x : PyStr) : ∀ (entries : List RRFEntry),
    x ∈ rrfKeys (rrfAdd entries doc m c upd) →
      x ∈ rrfKeys entries ∨ x = docKey doc
  | [] => by simp [rrfAdd, rrfKeys]
  | e :: rest => by
    by_cases hk : e.key = docKey doc
    · simp [rrfAdd, rrfKeys, hk]
      intro h
      rcases h with h | h
      · exact Or.inl (Or.inl h)
      · exact Or.inl (Or.inr h)
    · simp only [rrfAdd, if_neg hk, rrfKeys, List.map_cons, List.mem_cons]
      intro h
      rcases h with h | h
      · exact Or.inl (by simp [rrfKeys, h])
      · rcases rrfKeys_rrfAdd_sub doc m c upd x rest h with h2 | h2
        · exact Or.inl (by simp [rrfKeys] at h2 ⊢; exact Or.inr h2)
        · exact Or.inr h2

theorem rrfKeys_cons (e : RRFEntry) (rest : List RRFEntry) :
    rrfKeys (e :: rest) = e.key :: rrfKeys rest := rfl

theorem rrfKeys_rrfAdd_nodup (doc : PyStr) (m : PyMeta) (c : ℚ)
    (upd : PyMeta → PyMeta) : ∀ (entries : List RRFEntry),
    (rrfKeys entries).Nodup → (rrfKeys (rrfAdd entries doc m c upd)).Nodup
  | [], _ => by simp [rrfAdd, rrfKeys]
  | e :: rest, hnd => by
    rw [rrfKeys_cons] at hnd
    obtain ⟨hhead, htail⟩ := List.nodup_cons.mp hnd
    by_cases hk : e.key = docKey doc
    · simp only [rrfAdd, if_pos hk]
      rw [rrfKeys_cons]
      exact List.nodup_cons.mpr ⟨hhead, htail⟩
    · simp only [rrfAdd, if_neg hk]
      rw [rrfKeys_cons]
      refine List.nodup_cons.mpr ⟨?_, rrfKeys_rrfAdd_nodup doc m c upd rest htail⟩
      intro hmem
      rcases rrfKeys_rrfAdd_sub doc m c upd e.key rest hmem with h2 | h2
      · exact hhead h2
      · exact hk h2

theorem rrfKeys_rrfPass_nodup (setRank : Nat → PyMeta → PyMeta) (k : Nat) :
    ∀ (pairs : List (PyStr × PyMeta)) (entries : List RRFEntry) (rank : Nat),
    (rrfKeys entries).Nodup → (rrfKeys (rrfPass setRank k entries pairs rank)).Nodup
  | [], entries, rank, h => by simpa [rrfPass] using h
  | (d, m) :: rest, entries, rank, h => by
    rw [rrfPass]
    exact rrfKeys_rrfPass_nodup setRank k rest _ (rank + 1)
      (rrfKeys_rrfAdd_nodup d m _ _ entries h)

theorem rrf_find_self (key : PyStr) : ∀ (entries : List RRFEntry)
    (e : RRFEntry), (rrfKeys entries).Nodup → e ∈ entries → e.key = key →
    entries.find? (fun x => decide (x.key = key)) = some e
  | [], e, _, he, _ => by simp at he
  | a :: rest, e, hnd, he, hkey => by
    rw [rrfKeys_cons] at hnd
    obtain ⟨hhead, htail⟩ := List.nodup_cons.mp hnd
    rcases List.mem_cons.mp he with he1 | he2
    · have ha : a.key = key := by rw [← he1]; exact hkey
      rw [he1]
      simp [List.find?_cons, ha]
    · have hka : ¬a.key = key := by
        intro ha
        apply hhead
        rw [ha, ← hkey]
        exact List.mem_map_of_mem (fun x => x.key) he2
      simp only [List.find?_cons, decide_eq_false hka]
      exact rrf_find_self key rest e htail he2 hkey

theorem listContrib_of_not_mem (k : Nat) : ∀ (docs : List PyStr) (rank : Nat)
    (key : PyStr), key ∉ docs.map docKey → listContrib k rank docs key = 0
  | [], _, _, _ => rfl
  | d :: rest, rank, key, hnm => by
    have h1 : ¬docKey d = key := by
      intro h
      exact hnm (by rw [← h]; exact List.mem_map_of_mem docKey (List.mem_cons_self d rest))
    have h2 : key ∉ rest.map docKey := fun hm =>
      hnm (List.mem_cons_of_mem _ hm)
    simp only [listContrib, if_neg h1,
      listContrib_of_not_mem k rest (rank + 1) key h2, zero_add]

theorem listContrib_eq_rankContrib (k : Nat) : ∀ (docs : List PyStr) (rank : Nat)
    (key : PyStr), (docs.map docKey).Nodup →
    listContrib k rank docs key = rankContrib k rank docs key
  | [], _, _, _ => rfl
  | d :: rest, rank, key, hnd => by
    rw [List.map_cons] at hnd
    obtain ⟨hhead, htail⟩ := List.nodup_cons.mp hnd
    by_cases hdk : docKey d = key
    · have hnm : key ∉ rest.map docKey := by rw [← hdk]; exact hhead
      simp only [listContrib, rankContrib, if_pos hdk,
        listContrib_of_not_mem k rest (rank + 1) key hnm, add_zero]
    · simp only [listContrib, rankContrib, if_neg hdk,
        listContrib_eq_rankContrib k rest (rank + 1) key htail, zero_add]

theorem take_twenty_three {α : Type} (a b c : α) :
    List.take 20 [a, b, c] = [a, b, c] := rfl

theorem docKey_single (c : Char) : docKey [c] = [c] := rfl

/-- The RRF example of the specification, evaluated on the embedded code:
dense ranks `[A, B, C]`, sparse ranks `[B, A]`, `k = 60`. -/
theorem rrf_example :
    (reciprocal_rank_fusion [['A'], ['B'], ['C']]
        [PyMeta.empty, PyMeta.empty, PyMeta.empty] [['B'], ['A']]
        [PyMeta.empty, PyMeta.empty] 60 20).1 = [['A'], ['B'], ['C']] ∧
    (reciprocal_rank_fusion [['A'], ['B'], ['C']]
        [PyMeta.empty, PyMeta.empty, PyMeta.empty] [['B'], ['A']]
        [PyMeta.empty, PyMeta.empty] 60 20).2.map (fun m => m.rrf_score) =
      [some (1 / 61 + 1 / 62), some (1 / 62 + 1 / 61), some (1 / 63)] := by
  constructor <;>
    norm_num [reciprocal_rank_fusion, rrfRanked, rrfPass, rrfAdd,
      docKey_single, setDenseRank, setSparseRank, take_twenty_three,
      List.insertionSort, List.orderedInsert, PyMeta.empty]

/-- Claim C2: every fused entry scores the sum of `1/(k + r)` over the dense
and sparse lists (`r` its 1-indexed rank there, `0` when absent), the output
is ordered by fused score descending, and on the concrete instance dense
`[A, B, C]`, sparse `[B, A]`, `k = 60` the fused scores are
`A = 1/61 + 1/62`, `B = 1/62 + 1/61`, `C = 1/63` in that order. -/
theorem reciprocal_rank_fusion_spec (dense_docs sparse_docs : List PyStr)
    (dense_metadata sparse_metadata : List PyMeta) (k n_results : Nat)
    (hd : (dense_docs.map docKey).Nodup) (hs : (sparse_docs.map docKey).Nodup)
    (hld : dense_docs.length = dense_metadata.length)
    (hls : sparse_docs.length = sparse_metadata.length) :
    (∀ e ∈ rrfRanked (dense_docs.zip dense_metadata)
        (sparse_docs.zip sparse_metadata) k n_results,
      e.score = rankContrib k 1 dense_docs e.key +
        rankContrib k 1 sparse_docs e.key) ∧
    List.Sorted (fun a b : RRFEntry => b.score ≤ a.score)
      (rrfRanked (dense_docs.zip dense_metadata)
        (sparse_docs.zip sparse_metadata) k n_results) ∧
    ((reciprocal_rank_fusion [['A'], ['B'], ['C']]
        [PyMeta.empty, PyMeta.empty, PyMeta.empty] [['B'], ['A']]
        [PyMeta.empty, PyMeta.empty] 60 20).1 = [['A'], ['B'], ['C']] ∧
      (reciprocal_rank_fusion [['A'], ['B'], ['C']]
        [PyMeta.empty, PyMeta.empty, PyMeta.empty] [['B'], ['A']]
        [PyMeta.empty, PyMeta.empty] 60 20).2.map (fun m => m.rrf_score) =
        [some (1 / 61 + 1 / 62), some (1 / 62 + 1 / 61), some (1 / 63)]) := by
  refine ⟨?_, ?_, rrf_example⟩
  · intro e he
    have he2 : e ∈ rrfPass setSparseRank k
        (rrfPass setDenseRank k [] (dense_docs.zip dense_metadata) 1)
        (sparse_docs.zip sparse_metadata) 1 :=
      (List.mem_insertionSort _).mp ((List.take_sublist _ _).subset he)
    have hnodup : (rrfKeys (rrfPass setSparseRank k
        (rrfPass setDenseRank k [] (dense_docs.zip dense_metadata) 1)
        (sparse_docs.zip sparse_metadata) 1)).Nodup :=
      rrfKeys_rrfPass_nodup setSparseRank k _ _ _
        (rrfKeys_rrfPass_nodup setDenseRank k _ _ _ (by simp [rrfKeys]))
    have hfind := rrf_find_self e.key _ e hnodup he2 rfl
    have hlook : rrfLookup (rrfPass setSparseRank k
        (rrfPass setDenseRank k [] (dense_docs.zip dense_metadata) 1)
        (sparse_docs.zip sparse_metadata) 1) e.key = e.score := by
      unfold rrfLookup
      rw [hfind]
    have hmfd : (dense_docs.zip dense_metadata).map (fun p => p.1) = dense_docs := by
      simpa using List.map_fst_zip dense_docs dense_metadata hld.le
    have hmfs : (sparse_docs.zip sparse_metadata).map (fun p => p.1) = sparse_docs := by
      simpa using List.map_fst_zip sparse_docs sparse_metadata hls.le
    have hp1 := rrfLookup_rrfPass setSparseRank k e.key
      (sparse_docs.zip sparse_metadata)
      (rrfPass setDenseRank k [] (dense_docs.zip dense_metadata) 1) 1
    have hp2 := rrfLookup_rrfPass setDenseRank k e.key
      (dense_docs.zip dense_metadata) [] 1
    have hz : rrfLookup [] e.key = 0 := rfl
    rw [hmfs] at hp1
    rw [hmfd, hz, zero_add] at hp2
    rw [hp2, hlook] at hp1
    rw [hp1, listContrib_eq_rankContrib k dense_docs 1 e.key hd,
      listContrib_eq_rankContrib k sparse_docs 1 e.key hs]
  · have h1 : IsTotal RRFEntry (fun a b => b.score ≤ a.score) :=
      ⟨fun a b => le_total b.score a.score⟩
    have h2 : IsTrans RRFEntry (fun a b => b.score ≤ a.score) :=
      ⟨fun _ _ _ hab hbc => le_trans hbc hab⟩
    exact List.Pairwise.sublist (List.take_sublist _ _)
      (List.sorted_insertionSort _ _)

/-- Witness for C2 at a concrete input. -/
theorem reciprocal_rank_fusion_spec_witness :
    List.Sorted (fun a b : RRFEntry => b.score ≤ a.score)
      (rrfRanked (([['A'], ['B'], ['C']] : List PyStr).zip
          [PyMeta.empty, PyMeta.empty, PyMeta.empty])
        (([['B'], ['A']] : List PyStr).zip [PyMeta.empty, PyMeta.empty]) 60 20) :=
  (reciprocal_rank_fusion_spec [['A'], ['B'], ['C']] [['B'], ['A']]
    [PyMeta.empty, PyMeta.empty, PyMeta.empty] [PyMeta.empty, PyMeta.empty]
    60 20 (by decide) (by decide) rfl rfl).2.1

/-! ## LRU caches (`src/backend/cache_manager.py`)

`OrderedDict` is modelled as an association list in insertion/recency order
(head = oldest, tail = most recent).  `_compute_key` is external hashing
(`hashlib`); the embedded operations work on the computed keys directly, so
the claims quantify over distinct keys. -/

/-- `OrderedDict` lookup. -/
def odFind {V : Type} (l : List (String × V)) (k : String) : Option V :=
  (l.find? (fun p => decide (p.1 = k))).map (fun p => p.2)

/-- `OrderedDict` assignment `d[k] = v`: update in place when the key exists
(keeping its position), else append. -/
def odSet {V : Type} : List (String × V) → String → V → List (String × V)
  | [], k, v => [(k, v)]
  | p :: rest, k, v =>
    if p.1 = k then (k, v) :: rest else p :: odSet rest k v

/-- `OrderedDict.move_to_end(k)`: remove the entry for `k` (when present) and
append it at the tail. -/
def odMoveToEnd {V : Type} (l : List (String × V)) (k : String) :
    List (String × V) :=
  match odFind l k with
  | some v => (l.eraseP (fun p => decide (p.1 = k))) ++ [(k, v)]
  | none => l

/-- `del d[k]` (first occurrence). -/
def odErase {V : Type} (l : List (String × V)) (k : String) : List (String × V) :=
  l.eraseP (fun p => decide (p.1 = k))

namespace EmbeddingCache

/-- State of `EmbeddingCache` (`cache_manager.py` lines 13-101). -/
structure State (V : Type) where
  max_size : Nat
  cache : List (String × V)
  hits : Nat
  misses : Nat
deriving DecidableEq

/-- A fresh cache of the given capacity. -/
def init (V : Type) (max_size : Nat) : State V := ⟨max_size, [], 0, 0⟩

/-- `get` (lines 37-56): on a hit, move the key to the most-recent end. -/
def get {V : Type} (c : State V) (key : String) : Option V × State V :=
  match odFind c.cache key with
  | some v => (some v,
      { c with cache := odMoveToEnd c.cache key, hits := c.hits + 1 })
  | none => (none, { c with misses := c.misses + 1 })

/-- `put` (lines 58-79): evict the oldest entry when at capacity, then store. -/
def put {V : Type} (c : State V) (key : String) (v : V) : State V :=
  let cache1 := if c.max_size ≤ c.cache.length then c.cache.drop 1 else c.cache
  { c with cache := odSet cache1 key v }

/-- `clear` (lines 95-101). -/
def clear {V : Type} (c : State V) : State V :=
  { c with cache := [], hits := 0, misses := 0 }

/-- Insert a list of key/value pairs in order. -/
def putList {V : Type} (c : State V) (ps : List (String × V)) : State V :=
  ps.foldl (fun acc p => put acc p.1 p.2) c

end EmbeddingCache

namespace QueryCache

/-- State of `QueryCache` (`cache_manager.py` lines 104-212); wall-clock time
(`time.time()`) is an explicit `Nat` parameter of the operations. -/
structure State (V : Type) where
  max_size : Nat
  ttl_seconds : Nat
  cache : List (String × V)
  timestamps : List (String × Nat)
  hits : Nat
  misses : Nat
deriving DecidableEq

/-- A fresh cache of the given capacity and TTL. -/
def init (V : Type) (max_size ttl_seconds : Nat) : State V :=
  ⟨max_size, ttl_seconds, [], [], 0, 0⟩

/-- `_is_expired` (lines 130-137). -/
def isExpired {V : Type} (c : State V) (key : String) (now : Nat) : Bool :=
  match odFind c.timestamps key with
  | none => true
  | some t => decide (c.ttl_seconds < now - t)

/-- `get` (lines 139-163): a fresh hit moves the key to the most-recent end;
an expired entry is deleted and counts as a miss. -/
def get {V : Type} (c : State V) (key : String) (now : Nat) :
    Option V × State V :=
  match odFind c.cache key with
  | some v =>
    if isExpired c key now then
      (none,
       { c with
         cache := odErase c.cache key,
         timestamps := odErase c.timestamps key,
         misses := c.misses + 1 })
    else
      (some v, { c with cache := odMoveToEnd c.cache key, hits := c.hits + 1 })
  | none => (none, { c with misses := c.misses + 1 })

/-- `put` (lines 165-188): evict the oldest entry (and its timestamp) when at
capacity, then store the value with the current time. -/
def put {V : Type} (c : State V) (key : String) (v : V) (now : Nat) : State V :=
  let evict := c.max_size ≤ c.cache.length
  let cache1 := if evict then c.cache.drop 1 else c.cache
  let ts1 := if evict then
      (match c.cache with
       | [] => c.timestamps
       | (k0, _) :: _ => odErase c.timestamps k0)
    else c.timestamps
  { c with cache := odSet cache1 key v, timestamps := odSet ts1 key now }

/-- `clear` (lines 205-212). -/
def clear {V : Type} (c : State V) : State V :=
  { c with cache := [], timestamps := [], hits := 0, misses := 0 }

/-- Insert a list of key/value pairs in order, each with its own timestamp. -/
def putList {V : Type} (c : State V) (ps : List ((String × V) × Nat)) : State V :=
  ps.foldl (fun acc p => put acc p.1.1 p.1.2 p.2) c

end QueryCache

theorem odSet_fresh {V : Type} (k : String) (v : V) : ∀ (l : List (String × V)),
    k ∉ l.map Prod.fst → odSet l k v = l ++ [(k, v)]
  | [], _ => rfl
  | p :: rest, h => by
    have h1 : ¬p.1 = k := by
      intro he
      exact h (by rw [← he]; exact List.mem_map_of_mem Prod.fst (List.mem_cons_self p rest))
    have h2 : k ∉ rest.map Prod.fst := fun hm => h (List.mem_cons_of_mem _ hm)
    simp only [odSet, if_neg h1, odSet_fresh k v rest h2, List.cons_append]

theorem odSet_mem_keys {V : Type} (k k' : String) (v' : V) :
    ∀ (l : List (String × V)), k ∈ l.map Prod.fst →
      k ∈ (odSet l k' v').map Prod.fst
  | [], h => by simp at h
  | p :: rest, h => by
    by_cases h1 : p.1 = k'
    · simp only [odSet, if_pos h1, List.map_cons, List.mem_cons]
      rcases List.mem_cons.mp h with h2 | h2
      · exact Or.inl (by rw [h2, h1])
      · exact Or.inr h2
    · simp only [odSet, if_neg h1, List.map_cons, List.mem_cons]
      rcases List.mem_cons.mp h with h2 | h2
      · exact Or.inl h2
      · exact Or.inr (odSet_mem_keys k k' v' rest h2)

theorem odFind_of_mem_keys {V : Type} (k : String) : ∀ (l : List (String × V)),
    k ∈ l.map Prod.fst → ∃ v, odFind l k = some v
  | [], h => by simp at h
  | p :: rest, h => by
    by_cases h1 : p.1 = k
    · exact ⟨p.2, by simp [odFind, List.find?_cons, h1]⟩
    · have h2 : k ∈ rest.map Prod.fst := by
        rw [List.map_cons] at h
        rcases List.mem_cons.mp h with h2 | h2
        · exact absurd h2.symm h1
        · exact h2
      obtain ⟨v, hv⟩ := odFind_of_mem_keys k rest h2
      refine ⟨v, ?_⟩
      simpa [odFind, List.find?_cons, decide_eq_false h1] using hv

theorem eraseP_key_length {V : Type} (k : String) (l : List (String × V))
    (h : k ∈ l.map Prod.fst) :
    (l.eraseP (fun p => decide (p.1 = k))).length = l.length - 1 := by
  obtain ⟨p, hp, hpk⟩ := List.mem_map.mp h
  exact List.length_eraseP_of_mem hp (by simp [hpk])

theorem embedding_putList_no_evict {V : Type} :
    ∀ (ps : List (String × V)) (c : EmbeddingCache.State V),
    c.cache.length + ps.length ≤ c.max_size →
    (c.cache.map Prod.fst ++ ps.map Prod.fst).Nodup →
    (EmbeddingCache.putList c ps).cache = c.cache ++ ps ∧
      (EmbeddingCache.putList c ps).max_size = c.max_size
  | [], c, _, _ => ⟨by simp [EmbeddingCache.putList], rfl⟩
  | p :: rest, c, hlen, hnd => by
    have hlt : ¬c.max_size ≤ c.cache.length := by
      simp only [List.length_cons] at hlen
      omega
    have hfresh : p.1 ∉ c.cache.map Prod.fst := by
      intro hmem
      have := (List.nodup_append.mp hnd).2.2
      exact this hmem (by simp)
    have hput : (EmbeddingCache.put c p.1 p.2).cache = c.cache ++ [p] := by
      show odSet (if c.max_size ≤ c.cache.length then c.cache.drop 1 else c.cache)
        p.1 p.2 = c.cache ++ [p]
      rw [if_neg hlt, odSet_fresh p.1 p.2 c.cache hfresh]
    have hmax : (EmbeddingCache.put c p.1 p.2).max_size = c.max_size := rfl
    have hrec := embedding_putList_no_evict rest (EmbeddingCache.put c p.1 p.2)
      (by rw [hput, hmax, List.length_append]
          simp only [List.length_cons] at hlen
          simp only [List.length_singleton]
          omega)
      (by rw [hput]
          simp only [List.map_append, List.map_cons] at hnd ⊢
          simpa [List.append_assoc] using hnd)
    have hpl : EmbeddingCache.putList c (p :: rest) =
        EmbeddingCache.putList (EmbeddingCache.put c p.1 p.2) rest := rfl
    rw [hpl, hrec.1, hrec.2, hput, hmax, List.append_assoc]
    exact ⟨rfl, rfl⟩

theorem query_putList_no_evict {V : Type} :
    ∀ (ps : List ((String × V) × Nat)) (c : QueryCache.State V),
    c.cache.length + ps.length ≤ c.max_size →
    (c.cache.map Prod.fst ++ (ps.map (fun p => p.1)).map Prod.fst).Nodup →
    (QueryCache.putList c ps).cache = c.cache ++ ps.map (fun p => p.1) ∧
      (QueryCache.putList c ps).max_size = c.max_size
  | [], c, _, _ => ⟨by simp [QueryCache.putList], rfl⟩
  | p :: rest, c, hlen, hnd => by
    have hlt : ¬c.max_size ≤ c.cache.length := by
      simp only [List.length_cons] at hlen
      omega
    have hfresh : p.1.1 ∉ c.cache.map Prod.fst := by
      intro hmem
      have := (List.nodup_append.mp hnd).2.2
      exact this hmem (by simp)
    have hput : (QueryCache.put c p.1.1 p.1.2 p.2).cache = c.cache ++ [p.1] := by
      show odSet (if c.max_size ≤ c.cache.length then c.cache.drop 1 else c.cache)
        p.1.1 p.1.2 = c.cache ++ [p.1]
      rw [if_neg hlt, odSet_fresh p.1.1 p.1.2 c.cache hfresh]
    have hmax : (QueryCache.put c p.1.1 p.1.2 p.2).max_size = c.max_size := rfl
    have hrec := query_putList_no_evict rest (QueryCache.put c p.1.1 p.1.2 p.2)
      (by rw [hput, hmax, List.length_append]
          simp only [List.length_cons] at hlen
          simp only [List.length_singleton]
          omega)
      (by rw [hput]
          simp only [List.map_append, List.map_cons] at hnd ⊢
          simpa [List.append_assoc] using hnd)
    have hpl : QueryCache.putList c (p :: rest) =
        QueryCache.putList (QueryCache.put c p.1.1 p.1.2 p.2) rest := rfl
    rw [hpl, hrec.1, hrec.2, hput, hmax, List.append_assoc]
    exact ⟨rfl, rfl⟩

theorem embedding_eviction {V : Type} (max : Nat) (ps : List (String × V))
    (h1 : 1 ≤ max) (hlen : ps.length = max + 1) (hnd : (ps.map Prod.fst).Nodup) :
    (EmbeddingCache.putList (EmbeddingCache.init V max) ps).cache = ps.drop 1 := by
  obtain ⟨q, hq⟩ : ∃ q, ps.drop max = [q] := by
    apply List.length_eq_one.mp
    rw [List.length_drop, hlen]
    omega
  have hsplit : ps = ps.take max ++ [q] := by
    rw [← hq]
    exact (List.take_append_drop max ps).symm
  have htklen : (ps.take max).length = max := by
    rw [List.length_take, hlen]
    omega
  have hnd1 : ((EmbeddingCache.init V max).cache.map Prod.fst ++
      (ps.take max).map Prod.fst).Nodup := by
    show (([] : List String) ++ (ps.take max).map Prod.fst).Nodup
    rw [List.nil_append, List.map_take]
    exact List.Nodup.sublist (List.take_sublist _ _) hnd
  have hfirst := embedding_putList_no_evict (ps.take max)
    (EmbeddingCache.init V max)
    (by show ([] : List (String × V)).length + (ps.take max).length ≤ max
        rw [htklen]
        simp)
    hnd1
  have hc1cache : (EmbeddingCache.putList (EmbeddingCache.init V max)
      (ps.take max)).cache = ps.take max := by
    rw [hfirst.1]
    show ([] : List (String × V)) ++ ps.take max = ps.take max
    rw [List.nil_append]
  have hc1max : (EmbeddingCache.putList (EmbeddingCache.init V max)
      (ps.take max)).max_size = max := hfirst.2
  have hndsplit : ((ps.take max).map Prod.fst ++ [q.1]).Nodup := by
    have h := hnd
    rw [hsplit, List.map_append] at h
    simpa using h
  have hfq0 : q.1 ∉ (ps.take max).map Prod.fst := by
    intro hmem
    have := (List.nodup_append.mp hndsplit).2.2
    exact this hmem (by simp)
  have hfq : q.1 ∉ ((ps.take max).drop 1).map Prod.fst := by
    intro hmem
    exact hfq0 (((List.drop_sublist 1 (ps.take max)).map Prod.fst).subset hmem)
  have hstep : EmbeddingCache.putList (EmbeddingCache.init V max) ps =
      EmbeddingCache.put (EmbeddingCache.putList (EmbeddingCache.init V max)
        (ps.take max)) q.1 q.2 := by
    conv_lhs => rw [hsplit]
    unfold EmbeddingCache.putList
    rw [List.foldl_append]
    rfl
  have hcap : (EmbeddingCache.putList (EmbeddingCache.init V max)
      (ps.take max)).max_size ≤ (EmbeddingCache.putList
      (EmbeddingCache.init V max) (ps.take max)).cache.length := by
    rw [hc1cache, hc1max, htklen]
  rw [hstep]
  have hput : (EmbeddingCache.put (EmbeddingCache.putList
      (EmbeddingCache.init V max) (ps.take max)) q.1 q.2).cache =
      odSet ((EmbeddingCache.putList (EmbeddingCache.init V max)
        (ps.take max)).cache.drop 1) q.1 q.2 := by
    show odSet (if _ ≤ _ then _ else _) q.1 q.2 = _
    rw [if_pos hcap]
  rw [hput, hc1cache, odSet_fresh q.1 q.2 _ hfq]
  conv_rhs => rw [hsplit]
  rw [List.drop_append_of_le_length (by rw [htklen]; omega)]

theorem query_eviction {V : Type} (max ttl : Nat) (ps : List ((String × V) × Nat))
    (h1 : 1 ≤ max) (hlen : ps.length = max + 1)
    (hnd : ((ps.map (fun p => p.1)).map Prod.fst).Nodup) :
    (QueryCache.putList (QueryCache.init V max ttl) ps).cache =
      (ps.map (fun p => p.1)).drop 1 := by
  obtain ⟨q, hq⟩ : ∃ q, ps.drop max = [q] := by
    apply List.length_eq_one.mp
    rw [List.length_drop, hlen]
    omega
  have hsplit : ps = ps.take max ++ [q] := by
    rw [← hq]
    exact (List.take_append_drop max ps).symm
  have htklen : (ps.take max).length = max := by
    rw [List.length_take, hlen]
    omega
  have hnd1 : ((QueryCache.init V max ttl).cache.map Prod.fst ++
      ((ps.take max).map (fun p => p.1)).map Prod.fst).Nodup := by
    show (([] : List String) ++ ((ps.take max).map (fun p => p.1)).map Prod.fst).Nodup
    rw [List.nil_append, List.map_take, List.map_take]
    exact List.Nodup.sublist (List.take_sublist _ _) hnd
  have hfirst := query_putList_no_evict (ps.take max) (QueryCache.init V max ttl)
    (by show ([] : List (String × V)).length + (ps.take max).length ≤ max
        rw [htklen]
        simp)
    hnd1
  have hc1cache : (QueryCache.putList (QueryCache.init V max ttl)
      (ps.take max)).cache = (ps.take max).map (fun p => p.1) := by
    rw [hfirst.1]
    show ([] : List (String × V)) ++ (ps.take max).map (fun p => p.1) = _
    rw [List.nil_append]
  have hc1max : (QueryCache.putList (QueryCache.init V max ttl)
      (ps.take max)).max_size = max := hfirst.2
  have hndsplit : (((ps.take max).map (fun p => p.1)).map Prod.fst ++ [q.1.1]).Nodup := by
    have h := hnd
    rw [hsplit, List.map_append, List.map_append] at h
    simpa using h
  have hfq0 : q.1.1 ∉ ((ps.take max).map (fun p => p.1)).map Prod.fst := by
    intro hmem
    have := (List.nodup_append.mp hndsplit).2.2
    exact this hmem (by simp)
  have hfq : q.1.1 ∉ (((ps.take max).map (fun p => p.1)).drop 1).map Prod.fst := by
    intro hmem
    exact hfq0 (((List.drop_sublist 1 ((ps.take max).map (fun p => p.1))).map
      Prod.fst).subset hmem)
  have hstep : QueryCache.putList (QueryCache.init V max ttl) ps =
      QueryCache.put (QueryCache.putList (QueryCache.init V max ttl)
        (ps.take max)) q.1.1 q.1.2 q.2 := by
    conv_lhs => rw [hsplit]
    unfold QueryCache.putList
    rw [List.foldl_append]
    rfl
  have hcap : (QueryCache.putList (QueryCache.init V max ttl)
      (ps.take max)).max_size ≤ (QueryCache.putList
      (QueryCache.init V max ttl) (ps.take max)).cache.length := by
    rw [hc1cache, hc1max, List.length_map, htklen]
  rw [hstep]
  have hput : (QueryCache.put (QueryCache.putList
      (QueryCache.init V max ttl) (ps.take max)) q.1.1 q.1.2 q.2).cache =
      odSet ((QueryCache.putList (QueryCache.init V max ttl)
        (ps.take max)).cache.drop 1) q.1.1 q.1.2 := by
    show odSet (if _ ≤ _ then _ else _) q.1.1 q.1.2 = _
    rw [if_pos hcap]
  rw [hput, hc1cache, odSet_fresh q.1.1 q.1.2 _ hfq]
  conv_rhs => rw [hsplit]
  rw [List.map_append, List.drop_append_of_le_length
    (by rw [List.length_map, htklen]; omega)]
  rfl

theorem embedding_refresh {V : Type} (c : EmbeddingCache.State V)
    (k k' : String) (v' : V) (hlen : c.cache.length = c.max_size)
    (h2 : 2 ≤ c.max_size) (hk : k ∈ c.cache.map Prod.fst) :
    k ∈ (EmbeddingCache.put (EmbeddingCache.get c k).2 k' v').cache.map Prod.fst := by
  obtain ⟨v, hv⟩ := odFind_of_mem_keys k c.cache hk
  have hget : (EmbeddingCache.get c k).2.cache =
      (c.cache.eraseP (fun p => decide (p.1 = k))) ++ [(k, v)] := by
    unfold EmbeddingCache.get
    rw [hv]
    show odMoveToEnd c.cache k = _
    unfold odMoveToEnd
    rw [hv]
  have hgmax : (EmbeddingCache.get c k).2.max_size = c.max_size := by
    unfold EmbeddingCache.get
    rw [hv]
  have hel : (c.cache.eraseP (fun p => decide (p.1 = k))).length =
      c.max_size - 1 := by
    rw [eraseP_key_length k c.cache hk, hlen]
  have hglen : (EmbeddingCache.get c k).2.cache.length = c.max_size := by
    rw [hget, List.length_append, hel, List.length_singleton]
    omega
  have hcap : (EmbeddingCache.get c k).2.max_size ≤
      (EmbeddingCache.get c k).2.cache.length := by
    rw [hglen, hgmax]
  have hput : (EmbeddingCache.put (EmbeddingCache.get c k).2 k' v').cache =
      odSet ((EmbeddingCache.get c k).2.cache.drop 1) k' v' := by
    show odSet (if _ ≤ _ then _ else _) k' v' = _
    rw [if_pos hcap]
  rw [hput, hget, List.drop_append_of_le_length (by rw [hel]; omega)]
  apply odSet_mem_keys
  rw [List.map_append]
  exact List.mem_append_right _ (by simp)

theorem query_refresh {V : Type} (c : QueryCache.State V) (k k' : String)
    (v' : V) (now now' : Nat) (hlen : c.cache.length = c.max_size)
    (h2 : 2 ≤ c.max_size) (hk : k ∈ c.cache.map Prod.fst)
    (hfresh : QueryCache.isExpired c k now = false) :
    k ∈ (QueryCache.put (QueryCache.get c k now).2 k' v' now').cache.map Prod.fst := by
  obtain ⟨v, hv⟩ := odFind_of_mem_keys k c.cache hk
  have hget : (QueryCache.get c k now).2.cache =
      (c.cache.eraseP (fun p => decide (p.1 = k))) ++ [(k, v)] := by
    unfold QueryCache.get
    rw [hv]
    show (if QueryCache.isExpired c k now then _ else _ : Option V × QueryCache.State V).2.cache = _
    rw [hfresh]
    show odMoveToEnd c.cache k = _
    unfold odMoveToEnd
    rw [hv]
  have hgmax : (QueryCache.get c k now).2.max_size = c.max_size := by
    unfold QueryCache.get
    rw [hv]
    show (if QueryCache.isExpired c k now then _ else _ : Option V × QueryCache.State V).2.max_size = _
    rw [hfresh]
    rfl
  have hel : (c.cache.eraseP (fun p => decide (p.1 = k))).length =
      c.max_size - 1 := by
    rw [eraseP_key_length k c.cache hk, hlen]
  have hglen : (QueryCache.get c k now).2.cache.length = c.max_size := by
    rw [hget, List.length_append, hel, List.length_singleton]
    omega
  have hcap : (QueryCache.get c k now).2.max_size ≤
      (QueryCache.get c k now).2.cache.length := by
    rw [hglen, hgmax]
  have hput : (QueryCache.put (QueryCache.get c k now).2 k' v' now').cache =
      odSet ((QueryCache.get c k now).2.cache.drop 1) k' v' := by
    show odSet (if _ ≤ _ then _ else _) k' v' = _
    rw [if_pos hcap]
  rw [hput, hget, List.drop_append_of_le_length (by rw [hel]; omega)]
  apply odSet_mem_keys
  rw [List.map_append]
  exact List.mem_append_right _ (by simp)

/-- Claim C8: inserting `max_size + 1` distinct keys into a fresh LRU cache
(embedding or query cache) evicts exactly the least-recently-used entry and no
other (the remaining entries are the later `max_size` insertions, in order),
and a `get` on a present (non-expired, for the query cache) key refreshes its
recency: it survives the next capacity eviction caused by a further `put`. -/
theorem lru_eviction_and_refresh (V : Type) :
    (∀ (max : Nat) (ps : List (String × V)), 1 ≤ max → ps.length = max + 1 →
      (ps.map Prod.fst).Nodup →
      (EmbeddingCache.putList (EmbeddingCache.init V max) ps).cache = ps.drop 1) ∧
    (∀ (max ttl : Nat) (ps : List ((String × V) × Nat)), 1 ≤ max →
      ps.length = max + 1 → ((ps.map (fun p => p.1)).map Prod.fst).Nodup →
      (QueryCache.putList (QueryCache.init V max ttl) ps).cache =
        (ps.map (fun p => p.1)).drop 1) ∧
    (∀ (c : EmbeddingCache.State V) (k k' : String) (v' : V),
      c.cache.length = c.max_size → 2 ≤ c.max_size → k ∈ c.cache.map Prod.fst →
      k ∈ (EmbeddingCache.put (EmbeddingCache.get c k).2 k' v').cache.map Prod.fst) ∧
    (∀ (c : QueryCache.State V) (k k' : String) (v' : V) (now now' : Nat),
      c.cache.length = c.max_size → 2 ≤ c.max_size → k ∈ c.cache.map Prod.fst →
      QueryCache.isExpired c k now = false →
      k ∈ (QueryCache.put (QueryCache.get c k now).2 k' v' now').cache.map
        Prod.fst) :=
  ⟨fun max ps => embedding_eviction max ps,
   fun max ttl ps => query_eviction max ttl ps,
   fun c k k' v' => embedding_refresh c k k' v',
   fun c k k' v' now now' => query_refresh c k k' v' now now'⟩

/-- Witness for C8 at a concrete input: capacity 1, two distinct keys; the
first inserted key is evicted. -/
theorem lru_eviction_and_refresh_witness :
    (EmbeddingCache.putList (EmbeddingCache.init Nat 1)
      [("a", 1), ("b", 2)]).cache = [("b", 2)] :=
  (lru_eviction_and_refresh Nat).1 1 [("a", 1), ("b", 2)]
    (by decide) rfl (by decide)

/-! ## Claim C9: size invariant under arbitrary operation sequences -/

/-- One operation on an embedding cache. -/
inductive ECmd (V : Type)
  | put (k : String) (v : V)
  | get (k : String)
  | clear

/-- One operation on a query cache (with the wall-clock time at which it
runs). -/
inductive QCmd (V : Type)
  | put (k : String) (v : V) (now : Nat)
  | get (k : String) (now : Nat)
  | clear

/-- Apply one embedding-cache operation. -/
def EmbeddingCache.step {V : Type} (c : EmbeddingCache.State V) :
    ECmd V → EmbeddingCache.State V
  | .put k v => EmbeddingCache.put c k v
  | .get k => (EmbeddingCache.get c k).2
  | .clear => EmbeddingCache.clear c

/-- Apply one query-cache operation. -/
def QueryCache.step {V : Type} (c : QueryCache.State V) :
    QCmd V → QueryCache.State V
  | .put k v now => QueryCache.put c k v now
  | .get k now => (QueryCache.get c k now).2
  | .clear => QueryCache.clear c

/-- Run a sequence of operations on a fresh embedding cache. -/
def EmbeddingCache.run (V : Type) (max : Nat) (cmds : List (ECmd V)) :
    EmbeddingCache.State V :=
  cmds.foldl EmbeddingCache.step (EmbeddingCache.init V max)

/-- Run a sequence of operations on a fresh query cache. -/
def QueryCache.run (V : Type) (max ttl : Nat) (cmds : List (QCmd V)) :
    QueryCache.State V :=
  cmds.foldl QueryCache.step (QueryCache.init V max ttl)

theorem odSet_length_le {V : Type} (k : String) (v : V) :
    ∀ (l : List (String × V)), (odSet l k v).length ≤ l.length + 1
  | [] => by simp [odSet]
  | p :: rest => by
    by_cases h : p.1 = k
    · simp [odSet, h]
    · simp only [odSet, if_neg h, List.length_cons]
      have := odSet_length_le k v rest
      omega

theorem odFind_mem_keys {V : Type} (k : String) : ∀ (l : List (String × V))
    (v : V), odFind l k = some v → k ∈ l.map Prod.fst
  | [], v, h => by simp [odFind] at h
  | p :: rest, v, h => by
    by_cases h1 : p.1 = k
    · rw [List.map_cons, h1]
      exact List.mem_cons_self _ _
    · rw [List.map_cons]
      refine List.mem_cons_of_mem _ (odFind_mem_keys k rest v ?_)
      simpa [odFind, List.find?_cons, decide_eq_false h1] using h

theorem odMoveToEnd_length {V : Type} (l : List (String × V)) (k : String) :
    (odMoveToEnd l k).length = l.length := by
  unfold odMoveToEnd
  cases hv : odFind l k with
  | none => rfl
  | some v =>
    have hk := odFind_mem_keys k l v hv
    have h1 : 1 ≤ l.length := by
      cases l with
      | nil => simp at hk
      | cons a t => simp
    rw [List.length_append, eraseP_key_length k l hk, List.length_singleton]
    omega

theorem embedding_step_le {V : Type} (c : EmbeddingCache.State V) (cmd : ECmd V)
    (h1 : 1 ≤ c.max_size) (hinv : c.cache.length ≤ c.max_size) :
    (EmbeddingCache.step c cmd).cache.length ≤ c.max_size ∧
      (EmbeddingCache.step c cmd).max_size = c.max_size := by
  cases cmd with
  | put k v =>
    refine ⟨?_, rfl⟩
    show (odSet (if c.max_size ≤ c.cache.length then c.cache.drop 1
      else c.cache) k v).length ≤ c.max_size
    by_cases hc : c.max_size ≤ c.cache.length
    · rw [if_pos hc]
      have := odSet_length_le k v (c.cache.drop 1)
      rw [List.length_drop] at this
      omega
    · rw [if_neg hc]
      have := odSet_length_le k v c.cache
      omega
  | get k =>
    have he : EmbeddingCache.step c (ECmd.get k) = (EmbeddingCache.get c k).2 := rfl
    rw [he]
    cases hv : odFind c.cache k with
    | some v =>
      have hg : (EmbeddingCache.get c k).2 =
          { c with cache := odMoveToEnd c.cache k, hits := c.hits + 1 } := by
        unfold EmbeddingCache.get
        rw [hv]
      rw [hg]
      refine ⟨?_, rfl⟩
      show (odMoveToEnd c.cache k).length ≤ c.max_size
      rw [odMoveToEnd_length]
      exact hinv
    | none =>
      have hg : (EmbeddingCache.get c k).2 = { c with misses := c.misses + 1 } := by
        unfold EmbeddingCache.get
        rw [hv]
      rw [hg]
      exact ⟨hinv, rfl⟩
  | clear => exact ⟨by simp [EmbeddingCache.step, EmbeddingCache.clear], rfl⟩

theorem query_step_le {V : Type} (c : QueryCache.State V) (cmd : QCmd V)
    (h1 : 1 ≤ c.max_size) (hinv : c.cache.length ≤ c.max_size) :
    (QueryCache.step c cmd).cache.length ≤ c.max_size ∧
      (QueryCache.step c cmd).max_size = c.max_size := by
  cases cmd with
  | put k v now =>
    refine ⟨?_, rfl⟩
    show (odSet (if c.max_size ≤ c.cache.length then c.cache.drop 1
      else c.cache) k v).length ≤ c.max_size
    by_cases hc : c.max_size ≤ c.cache.length
    · rw [if_pos hc]
      have := odSet_length_le k v (c.cache.drop 1)
      rw [List.length_drop] at this
      omega
    · rw [if_neg hc]
      have := odSet_length_le k v c.cache
      omega
  | get k now =>
    have he : QueryCache.step c (QCmd.get k now) = (QueryCache.get c k now).2 := rfl
    rw [he]
    cases hv : odFind c.cache k with
    | some v =>
      by_cases hex : QueryCache.isExpired c k now
      · have hg : (QueryCache.get c k now).2 =
            { c with
              cache := odErase c.cache k,
              timestamps := odErase c.timestamps k,
              misses := c.misses + 1 } := by
          unfold QueryCache.get
          rw [hv]
          show (if QueryCache.isExpired c k now then _ else _ :
            Option V × QueryCache.State V).2 = _
          rw [if_pos hex]
        rw [hg]
        refine ⟨?_, rfl⟩
        show (odErase c.cache k).length ≤ c.max_size
        exact le_trans (List.length_eraseP_le _) hinv
      · have hg : (QueryCache.get c k now).2 =
            { c with cache := odMoveToEnd c.cache k, hits := c.hits + 1 } := by
          unfold QueryCache.get
          rw [hv]
          show (if QueryCache.isExpired c k now then _ else _ :
            Option V × QueryCache.State V).2 = _
          rw [if_neg hex]
        rw [hg]
        refine ⟨?_, rfl⟩
        show (odMoveToEnd c.cache k).length ≤ c.max_size
        rw [odMoveToEnd_length]
        exact hinv
    | none =>
      have hg : (QueryCache.get c k now).2 = { c with misses := c.misses + 1 } := by
        unfold QueryCache.get
        rw [hv]
      rw [hg]
      exact ⟨hinv, rfl⟩
  | clear => exact ⟨by simp [QueryCache.step, QueryCache.clear], rfl⟩

theorem embedding_run_le {V : Type} (max : Nat) (h1 : 1 ≤ max) :
    ∀ (cmds : List (ECmd V)) (c : EmbeddingCache.State V),
    c.max_size = max → c.cache.length ≤ max →
    (cmds.foldl EmbeddingCache.step c).cache.length ≤ max
  | [], c, _, hinv => hinv
  | cmd :: rest, c, hmax, hinv => by
    have hstep := embedding_step_le c cmd (hmax ▸ h1) (hmax ▸ hinv)
    exact embedding_run_le max h1 rest (EmbeddingCache.step c cmd)
      (hstep.2.trans hmax) (hmax ▸ hstep.1)

theorem query_run_le {V : Type} (max : Nat) (h1 : 1 ≤ max) :
    ∀ (cmds : List (QCmd V)) (c : QueryCache.State V),
    c.max_size = max → c.cache.length ≤ max →
    (cmds.foldl QueryCache.step c).cache.length ≤ max
  | [], c, _, hinv => hinv
  | cmd :: rest, c, hmax, hinv => by
    have hstep := query_step_le c cmd (hmax ▸ h1) (hmax ▸ hinv)
    exact query_run_le max h1 rest (QueryCache.step c cmd)
      (hstep.2.trans hmax) (hmax ▸ hstep.1)

/-- Claim C9: for every sequence of put/get/clear operations on a cache of
capacity `max_size ≥ 1`, the number of stored entries never exceeds
`max_size`.  Stated for every prefix by quantifying over all operation
lists. -/
theorem cache_size_invariant (V : Type) (max : Nat) (h1 : 1 ≤ max) :
    (∀ cmds : List (ECmd V),
      (EmbeddingCache.run V max cmds).cache.length ≤ max) ∧
    (∀ (ttl : Nat) (cmds : List (QCmd V)),
      (QueryCache.run V max ttl cmds).cache.length ≤ max) :=
  ⟨fun cmds => embedding_run_le max h1 cmds (EmbeddingCache.init V max) rfl
    (by simp [EmbeddingCache.init]),
   fun ttl cmds => query_run_le max h1 cmds (QueryCache.init V max ttl) rfl
    (by simp [QueryCache.init])⟩

/-- Witness for C9 at a concrete input: capacity 1, three operations. -/
theorem cache_size_invariant_witness :
    (EmbeddingCache.run Nat 1 [.put "a" 1, .put "b" 2, .get "b"]).cache.length ≤ 1 :=
  (cache_size_invariant Nat 1 (by decide)).1 [.put "a" 1, .put "b" 2, .get "b"]

/-! ## Query enhancer (`src/backend/query_enhancer.py`)

The spell checkers (`pyspellchecker`) and WordNet are external resources,
passed in as an environment; the surrounding logic (guards, case
preservation, normalization, abbreviation expansion with `\b`-bounded regex
substitution, case-insensitive dedup) is embedded.  Regex `\w` is modelled as
ASCII alphanumeric or underscore. -/

namespace QueryEnhancer

/-- An external spell checker for one language: membership test and proposed
correction (`None` when the checker has none). -/
structure SpellChecker where
  known : PyStr → Bool
  correction : PyStr → Option PyStr

/-- External resources of the enhancer: the French and English spell checkers
and the WordNet synonym lookup (already lower-cased, deduplicated; its order
is library-defined). -/
structure Env where
  fr : SpellChecker
  en : SpellChecker
  synonyms : PyStr → List PyStr

/-- `self.technical_terms` (lines 31-37). -/
def technical_terms : List PyStr :=
  (["api", "apis", "pdf", "pdfs", "ceo", "cto", "cfo",
    "sql", "nosql", "mongodb", "chromadb", "rag",
    "ai", "ml", "llm", "nlp", "ocr", "url", "urls",
    "pdg", "dg", "drh", "daf", "dsi", "pme", "sa", "sarl"]).map String.toList

/-- `self.abbreviations` (lines 39-73), in dict insertion order. -/
def abbreviations : List (PyStr × PyStr) :=
  ([("pdg", "président-directeur général"),
    ("dg", "directeur général"),
    ("drh", "directeur des ressources humaines"),
    ("daf", "directeur administratif et financier"),
    ("dsi", "directeur des systèmes d\x27information"),
    ("dag", "directeur administratif général"),
    ("ca", "chiffre d\x27affaires"),
    ("tva", "taxe sur la valeur ajoutée"),
    ("pme", "petite et moyenne entreprise"),
    ("tpe", "très petite entreprise"),
    ("eti", "entreprise de taille intermédiaire"),
    ("sa", "société anonyme"),
    ("sarl", "société à responsabilité limitée"),
    ("sas", "société par actions simplifiée"),
    ("eurl", "entreprise unipersonnelle à responsabilité limitée"),
    ("sce", "société coopérative européenne"),
    ("rh", "ressources humaines"),
    ("etc", "et cetera"),
    ("svp", "s\x27il vous plaît"),
    ("nb", "nota bene"),
    ("cf", "confer"),
    ("vs", "versus"),
    ("ceo", "chief executive officer"),
    ("cto", "chief technology officer"),
    ("cfo", "chief financial officer"),
    ("vp", "vice president"),
    ("hr", "human resources"),
    ("it", "information technology"),
    ("roi", "return on investment"),
    ("kpi", "key performance indicator")]).map
    (fun p => (p.1.toList, p.2.toList))

/-- The stop-word set of `_expand_query` (lines 202-205). -/
def stop_words : List PyStr :=
  (["the", "a", "an", "is", "are", "was", "were", "be", "been",
    "what", "which", "who", "where", "when", "how", "why",
    "do", "does", "did", "have", "has", "had", "can", "could",
    "will", "would", "should", "may", "might", "must"]).map String.toList

/-- Collapse runs of the character `c` to a single occurrence
(`re.sub(r'[c]+', 'c', s)`). -/
def squeezeChar (c : Char) : PyStr → PyStr
  | [] => []
  | [a] => [a]
  | a :: b :: t =>
    if a = c && b = c then squeezeChar c (b :: t)
    else a :: squeezeChar c (b :: t)

/-- `_normalize_query` (lines 122-132): collapse whitespace, squeeze repeated
`!`, `?`, `.`, and strip. -/
def normalize_query (q : PyStr) : PyStr :=
  pyStrip (squeezeChar '.' (squeezeChar '?' (squeezeChar '!'
    (joinSpace (pySplitWS q)))))

/-- Whether the first character is upper case (`word[0].isupper()`). -/
def headIsUpper : PyStr → Bool
  | [] => false
  | c :: _ => c.isUpper

/-- One word of `_correct_spelling` (lines 151-181): protected words are kept;
a correction is used only if the checker proposes a different non-empty word,
with the original case pattern restored. -/
def correctWord (sc : SpellChecker) (w : PyStr) : PyStr × Bool :=
  let wl := pyLower w
  if decide (w.length ≤ 2) || pyIsDigitStr w || technical_terms.contains wl ||
      !pyIsAlphaStr w then (w, false)
  else if sc.known wl then (w, false)
  else
    match sc.correction wl with
    | some corr =>
      if !corr.isEmpty && corr ≠ wl then
        (if pyIsUpperStr w then pyUpperStr corr
         else if headIsUpper w then pyCapitalize corr
         else corr, true)
      else (w, false)
    | none => (w, false)

/-- `_correct_spelling` (lines 134-184). -/
def correct_spelling (sc : SpellChecker) (q : PyStr) : PyStr × Bool :=
  let results := (pySplitWS q).map (correctWord sc)
  (joinSpace (results.map (fun r => r.1)), results.any (fun r => r.2))

/-- `s.replace(pat, rep)`: replace all non-overlapping occurrences left to
right.  Fuel-indexed for structural recursion; `fuel = s.length` suffices
because every step consumes at least one character. -/
def strReplaceFuel (pat rep : PyStr) : Nat → PyStr → PyStr
  | 0, s => s
  | _ + 1, [] => []
  | fuel + 1, c :: rest =>
    if !pat.isEmpty && pat.isPrefixOf (c :: rest) then
      rep ++ strReplaceFuel pat rep fuel ((c :: rest).drop pat.length)
    else c :: strReplaceFuel pat rep fuel rest

/-- Python `s.replace(pat, rep)`. -/
def strReplace (s pat rep : PyStr) : PyStr := strReplaceFuel pat rep s.length s

/-- The `synonym_map` dict of `_expand_query` (lines 207-214): first-seen
order; re-inserting an existing word keeps its position and (identical)
value. -/
def buildSynMap (syn : PyStr → List PyStr) (words : List PyStr) :
    List (PyStr × List PyStr) :=
  words.foldl (fun m w =>
    if stop_words.contains w || decide (w.length ≤ 2) then m
    else
      let syns := (syn w).take 3
      if syns.isEmpty then m
      else if (m.map Prod.fst).contains w then m
      else m ++ [(w, syns)]) []

/-- `_expand_query` (lines 186-225): only English queries are expanded; one
variation per (content word, synonym) pair, via plain substring replacement
on the lower-cased query, skipping no-op replacements. -/
def expand_query (syn : PyStr → List PyStr) (q : PyStr) (language : String) :
    List PyStr :=
  if language ≠ "en" then [q]
  else
    let ql := pyLower q
    let synonym_map := buildSynMap syn (pySplitWS ql)
    [q] ++ (synonym_map.map (fun ws =>
      ws.2.filterMap (fun s =>
        let variation := strReplace ql ws.1 s
        if variation ≠ ql then some variation else none))).flatten

/-- Regex `\w` (ASCII model). -/
def isWordChar (c : Char) : Bool := c.isAlphanum || c = '_'

/-- Whether the position after a candidate match is a `\b` boundary. -/
def boundaryOK : PyStr → Bool
  | [] => true
  | d :: _ => !isWordChar d

/-- `re.sub(r'\b' + pat + r'\b', rep, s)` for a pattern made of word
characters: replace every whole-word occurrence.  `prev` records whether the
previous character is a word character; fuel-indexed as `strReplaceFuel`. -/
def reSubWWFuel (pat rep : PyStr) : Nat → PyStr → Bool → PyStr
  | 0, s, _ => s
  | _ + 1, [], _ => []
  | fuel + 1, c :: rest, prev =>
    if !pat.isEmpty && pat.isPrefixOf (c :: rest) && !prev &&
        boundaryOK ((c :: rest).drop pat.length) then
      rep ++ reSubWWFuel pat rep fuel ((c :: rest).drop pat.length)
        (isWordChar (pat.getLastD ' '))
    else c :: reSubWWFuel pat rep fuel rest (isWordChar c)

/-- Whole-word regex substitution (see `reSubWWFuel`). -/
def reSubWW (pat rep s : PyStr) : PyStr := reSubWWFuel pat rep s.length s false

/-- `re.search(r'\b' + pat + r'\b', s)` for a word-character pattern. -/
def wwFound (pat : PyStr) : PyStr → Bool → Bool
  | [], _ => false
  | c :: rest, prev =>
    (!pat.isEmpty && pat.isPrefixOf (c :: rest) && !prev &&
      boundaryOK ((c :: rest).drop pat.length)) || wwFound pat rest (isWordChar c)

/-- `_expand_abbreviations` (lines 242-258): for each incoming query and each
known abbreviation occurring as a whole word in its lower-cased form, append
the expansion result unless it is already present (case-insensitively). -/
def expand_abbreviations (queries : List PyStr) : List PyStr :=
  queries.foldl (fun expanded q =>
    let ql := pyLower q
    abbreviations.foldl (fun expanded ab =>
      if wwFound ab.1 ql false then
        if (expanded.map pyLower).contains (reSubWW ab.1 ab.2 ql) then expanded
        else expanded ++ [reSubWW ab.1 ab.2 ql]
      else expanded) expanded) queries

/-- Case-insensitive dedup preserving order (lines 108-114). -/
def ciDedup : List PyStr → List PyStr → List PyStr
  | [], _ => []
  | q :: rest, seen =>
    if seen.contains (pyLower q) then ciDedup rest seen
    else q :: ciDedup rest (pyLower q :: seen)

/-- `enhance_query` (lines 77-120). -/
def enhance_query (env : Env) (query : PyStr) (detect_language : String) :
    PyStr × List PyStr × Option PyStr :=
  if query.isEmpty || (pyStrip query).isEmpty then (query, [query], none)
  else
    let normalized_query := normalize_query query
    let sc := if detect_language = "fr" then env.fr else env.en
    let cm := correct_spelling sc normalized_query
    let suggestion :=
      if cm.2 && decide (pyLower cm.1 ≠ pyLower normalized_query) then some cm.1
      else none
    let expanded := expand_abbreviations
      (expand_query env.synonyms cm.1 detect_language)
    (cm.1, ciDedup expanded [], suggestion)

end QueryEnhancer

/-! ## Claim C10 -/

/-- Claim C10: for every query that is empty or whitespace-only,
`enhance_query` returns the query unchanged, the variation list `[query]` and
no suggestion, with no normalization, correction or expansion performed. -/
theorem enhance_query_blank (env : QueryEnhancer.Env) (query : PyStr)
    (lang : String) (h : query = [] ∨ pyStrip query = []) :
    QueryEnhancer.enhance_query env query lang = (query, [query], none) := by
  have hc : (query.isEmpty || (pyStrip query).isEmpty) = true := by
    rcases h with h | h <;> simp [h]
  unfold QueryEnhancer.enhance_query
  rw [if_pos hc]

/-- Witness for C10 at a concrete input: a whitespace-only query. -/
theorem enhance_query_blank_witness :
    pyStrip " ".toList = [] ∧
    QueryEnhancer.enhance_query
      ⟨⟨fun _ => true, fun _ => none⟩, ⟨fun _ => true, fun _ => none⟩,
        fun _ => []⟩ " ".toList "fr" = (" ".toList, [" ".toList], none) :=
  ⟨by decide, enhance_query_blank _ " ".toList "fr" (Or.inr (by decide))⟩

/-! ## RAG service (`src/backend/rag_service.py`)

External collaborators of `get_response` are: the vector store search
(`vector_service.search(query, n_results, use_hybrid=True)` — spec section 1
declares storage backends out of scope), the cross-encoder (via
`EncoderState`), the entity extraction, the spell-check/synonym resources of
the enhancer, and the Cerebras LLM call, modelled as one `Except`-valued
outcome per retry attempt (prompt construction is part of the external
`generate` collaborator per spec section 1).  The embedded code uses the
optimized reranker (the standard-reranker fallback is taken only when loading
`RerankerOptimized` itself fails). -/

namespace RAGService

/-- `self.max_retries`. -/
def max_retries : Nat := 3

/-- `self.initial_retrieval_count`. -/
def initial_retrieval_count : Nat := 10

/-- `self.variation_retrieval_count`. -/
def variation_retrieval_count : Nat := 2

/-- `self.final_results_count`. -/
def final_results_count : Nat := 8

/-- `self.min_reranker_score` (−2.5). -/
def min_reranker_score : ℚ := -(5 / 2)

/-- `self.prefilter_threshold` (0.20). -/
def prefilter_threshold : ℚ := 1 / 5

/-- External collaborators of one `get_response` call. -/
structure Env where
  search : PyStr → Nat → List PyStr × List PyMeta
  enc : EncoderState
  extract : PyStr → List (List PyStr)
  enhancer : QueryEnhancer.Env
  llm : Nat → Except String String

/-- The French indicator substrings of `get_response` line 79. -/
def french_indicators : List PyStr :=
  (["à", "é", "è", "ê", "ç", "ù", "où", "quoi", "quel", "quelle", "qui",
    "dont", "lequel", "pourquoi", "comment"]).map String.toList

/-- The English indicator words of `get_response` line 80. -/
def english_indicators : List PyStr :=
  (["the", "what", "how", "why", "where", "when", "who", "which", "can",
    "could", "would", "should"]).map String.toList

/-- Lines 79-86: the query counts as non-French when at least one English
indicator occurs as a space-delimited word and no French indicator occurs. -/
def is_non_french_query (query : PyStr) : Bool :=
  let text_lower := pyLower query
  let french_count := french_indicators.countP
    (fun ind => pyContains ind text_lower)
  let english_count := english_indicators.countP
    (fun w => pyContains (' ' :: (w ++ [' '])) (' ' :: (text_lower ++ [' '])))
  decide (0 < english_count) && decide (french_count = 0)

/-- Python `round(x)` (banker's rounding, ties to even). -/
def roundHalfEven (q : ℚ) : ℤ :=
  let f := pyFloor q
  let r := q - (f : ℚ)
  if r < 1 / 2 then f
  else if 1 / 2 < r then f + 1
  else if 2 ∣ f then f
  else f + 1

/-- Python `round(x, 3)`. -/
def pyRound3 (q : ℚ) : ℚ := ((roundHalfEven (q * 1000) : ℚ)) / 1000

/-- One entry of the `sources` list built in lines 214-223. -/
structure SourceInfo where
  source : String
  chunk_index : Nat
  relevance_score : ℚ
  reranker_score : ℚ
  retrieval_method : String
deriving DecidableEq

/-- Lines 214-223: the source record of one final chunk. -/
def mkSource (m : PyMeta) : SourceInfo :=
  ⟨m.source.getD "Unknown", m.chunk_index.getD 0,
   pyRound3 (m.relevance_score.getD 0), pyRound3 (m.reranker_score.getD 0),
   m.retrieval_method.getD "dense"⟩

/-- `_handle_no_documents_found` (lines 336-348). -/
def noDocsMessage : String :=
  "Je m\x27excuse, mais je n\x27ai pas trouvé de documents pertinents dans la base de connaissances pour répondre à votre question. " ++
  "Cela pourrait signifier :\n" ++
  "1. Les informations que vous recherchez n\x27ont pas encore été indexées\n" ++
  "2. La requête pourrait être trop spécifique ou utiliser une terminologie différente\n" ++
  "3. Aucun document n\x27a été ajouté au système\n\n" ++
  "Veuillez essayer :\n" ++
  "- Reformuler votre question avec des mots-clés différents\n" ++
  "- Ajouter des documents pertinents au répertoire des fichiers\n" ++
  "- Utiliser le bouton \x27Réindexer les documents\x27 pour mettre à jour la base de connaissances"

/-- `_handle_low_relevance` (lines 350-359). -/
def lowRelevanceMessage : String :=
  "J\x27ai trouvé quelques documents, mais aucun d\x27entre eux ne semble suffisamment pertinent pour votre question. " ++
  "Les documents indexés ne contiennent peut-être pas d\x27informations sur ce sujet spécifique.\n\n" ++
  "Veuillez essayer :\n" ++
  "- Reformuler votre question avec des mots-clés différents\n" ++
  "- Être plus spécifique ou plus général dans votre requête\n" ++
  "- Ajouter des documents plus pertinents au répertoire des fichiers"

/-- The note appended to degraded responses for non-French queries
(lines 143 and 205). -/
def shortNote : String := "\n\n*Note: Ce système répond uniquement en français.*"

/-- The note appended to generated responses for non-French queries
(line 247). -/
def longNote : String :=
  "\n\n*Note: Ce système répond uniquement en français. Si vous avez posé votre question dans une autre langue, veuillez noter que toutes les réponses sont générées en français.*"

/-- The quota/rate-limit error raised in lines 256-261. -/
def quotaMessage : String :=
  "La limite de débit de l\x27API Cerebras a été dépassée. Veuillez réessayer plus tard ou vérifier les détails de facturation de votre clé API sur " ++
  "https://cloud.cerebras.ai"

/-- The authentication error raised in lines 264-269. -/
def authMessage : String :=
  "Clé API invalide ou non autorisée. Veuillez vérifier votre clé API Cerebras dans les Paramètres. " ++
  "Obtenez une clé valide depuis https://cloud.cerebras.ai"

/-- The final error raised after exhausting retries (line 278). -/
def failMessage (e : String) : String :=
  "Échec de génération de réponse après 3 tentatives: " ++ e

/-- Lines 255-256: quota/rate-limit classification of an exception text. -/
def isQuotaError (e : String) : Bool :=
  let s := pyLower e.toList
  pyContains "quota".toList s || pyContains "429".toList s ||
    pyContains "resource_exhausted".toList s || pyContains "rate".toList s

/-- Lines 263-264: authentication classification of an exception text. -/
def isAuthError (e : String) : Bool :=
  let s := pyLower e.toList
  pyContains "unauthorized".toList s || pyContains "401".toList s ||
    pyContains "invalid".toList s || pyContains "authentication".toList s

/-- Lines 100-122: search with the corrected query (budget 10), then with the
query variations `variations[1:min(2, len(variations))]` that differ
case-insensitively from the corrected query (budget 2 each); concatenate all
results in order. -/
def retrievedCandidates (env : Env) (corrected : PyStr)
    (variations : List PyStr) : List PyStr × List PyMeta :=
  let first := env.search corrected initial_retrieval_count
  let extras := ((variations.take (min 2 variations.length)).drop 1).filter
    (fun v => decide (pyLower v ≠ pyLower corrected))
  let extraResults := extras.map (fun v => env.search v variation_retrieval_count)
  (first.1 ++ (extraResults.map (fun r => r.1)).flatten,
   first.2 ++ (extraResults.map (fun r => r.2)).flatten)

/-- Lines 124-134: deduplicate by the 100-character key, keeping the first
occurrence (the `seen` set is threaded as a list). -/
def dedupCandidates : List (PyStr × PyMeta) → List PyStr → List (PyStr × PyMeta)
  | [], _ => []
  | (d, m) :: rest, seen =>
    if seen.contains (docKey d) then dedupCandidates rest seen
    else (d, m) :: dedupCandidates rest (docKey d :: seen)

/-- Lines 146-169: pre-filter by relevance/BM25/RRF floors, with the fallback
that keeps the top 10 (or everything) when the filter is too aggressive. -/
def prefilterStage (unique : List (PyStr × PyMeta)) : List (PyStr × PyMeta) :=
  let pre := unique.filter (fun dm =>
    decide (prefilter_threshold ≤ dm.2.relevance_score.getD 0) ||
    decide ((2 : ℚ) < dm.2.bm25_score.getD 0) ||
    decide ((1 / 50 : ℚ) < dm.2.rrf_score.getD 0))
  if decide (pre.length < 5) && decide (5 ≤ unique.length) then unique.take 10
  else if !pre.isEmpty then pre
  else unique

/-- Lines 180-194: with any reranked metadata present, filter by confidence
with `min_score = max(self.min_reranker_score, dynamic_threshold)` and the
dynamic threshold enabled. -/
def applyThreshold (reranked_docs : List PyStr)
    (reranked_metadata : List PyMeta) : List PyStr × List PyMeta :=
  if !reranked_metadata.isEmpty then
    let scores := reranked_metadata.map RerankerOptimized.scoreOf
    let dynamic_threshold := RerankerOptimized.compute_dynamic_threshold scores 20
    RerankerOptimized.filter_by_confidence reranked_docs reranked_metadata
      (max min_reranker_score dynamic_threshold) true
  else (reranked_docs, reranked_metadata)

/-- Lines 200-250: return the low-relevance degraded response when no final
documents remain; otherwise build the sources and invoke the LLM (an error
propagates to the retry loop as a raised exception). -/
def respondOrGenerate (env : Env) (query : PyStr) (sugg : Option PyStr)
    (final_docs : List PyStr) (final_metadata : List PyMeta) (attempt : Nat) :
    Except String (String × List SourceInfo × Option PyStr) :=
  if final_docs.isEmpty then
    .ok (lowRelevanceMessage ++
      (if is_non_french_query query then shortNote else ""), [], sugg)
  else
    let sources := final_metadata.map mkSource
    match env.llm attempt with
    | .error e => .error e
    | .ok response =>
      .ok (response ++
        (if is_non_french_query query then longNote else ""), sources, sugg)

/-- One iteration of the retry loop body (lines 100-250): retrieve,
deduplicate (returning the no-documents degraded response when empty),
pre-filter, rerank, threshold, truncate to the final count, then respond or
generate. -/
def attemptBody (env : Env) (query corrected : PyStr) (variations : List PyStr)
    (sugg : Option PyStr) (attempt : Nat) :
    Except String (String × List SourceInfo × Option PyStr) :=
  let retrieved := retrievedCandidates env corrected variations
  let unique := dedupCandidates (retrieved.1.zip retrieved.2) []
  if unique.isEmpty then
    .ok (noDocsMessage ++
      (if is_non_french_query query then shortNote else ""), [], sugg)
  else
    let pre := prefilterStage unique
    let rr := RerankerOptimized.rerank env.enc env.extract
      "dangvantuan/sentence-camembert-large" corrected
      (pre.map (fun dm => dm.1)) (pre.map (fun dm => dm.2))
      (min initial_retrieval_count pre.length) true
    let filtered := applyThreshold rr.1 rr.2
    respondOrGenerate env query sugg (filtered.1.take final_results_count)
      (filtered.2.take final_results_count) attempt

/-- The retry loop of lines 98-278, with exponential backoff abstracted away:
quota and auth errors are raised immediately with their explanatory French
messages; other errors retry while attempts remain, then raise the final
failure message.  The fuel is `max_retries - attempt`; the `0` case is
unreachable because the last attempt always returns or raises. -/
def getResponseLoop (env : Env) (query corrected : PyStr)
    (variations : List PyStr) (sugg : Option PyStr) :
    Nat → Nat → Except String (String × List SourceInfo × Option PyStr)
  | 0, _ => .error (failMessage "")
  | fuel + 1, attempt =>
    match attemptBody env query corrected variations sugg attempt with
    | .ok r => .ok r
    | .error e =>
      if isQuotaError e then .error quotaMessage
      else if isAuthError e then .error authMessage
      else if attempt + 1 < max_retries then
        getResponseLoop env query corrected variations sugg fuel (attempt + 1)
      else .error (failMessage e)

/-- The enhancement result used by `get_response` (line 90, always French). -/
def enhanced (env : Env) (query : PyStr) : PyStr × List PyStr × Option PyStr :=
  QueryEnhancer.enhance_query env.enhancer query "fr"

/-- `get_response` (lines 62-278). -/
def getResponse (env : Env) (query : PyStr) :
    Except String (String × List SourceInfo × Option PyStr) :=
  getResponseLoop env query (enhanced env query).1 (enhanced env query).2.1
    (enhanced env query).2.2 max_retries 0

end RAGService

theorem getResponseLoop_ok (env : RAGService.Env) (query corrected : PyStr)
    (variations : List PyStr) (sugg : Option PyStr) (fuel attempt : Nat)
    (r : String × List RAGService.SourceInfo × Option PyStr)
    (h : RAGService.attemptBody env query corrected variations sugg attempt = .ok r) :
    RAGService.getResponseLoop env query corrected variations sugg (fuel + 1)
      attempt = .ok r := by
  unfold RAGService.getResponseLoop
  rw [h]

/-- Claim C3: the two degraded terminal outcomes are ordinary returns, never
exceptions: when retrieval deduplication yields no candidates, `get_response`
returns the fixed no-documents message (plus the French-only note for
non-French queries) with an empty source list; and when the thresholding
stage leaves no final documents, the service responds with the fixed
low-relevance message with an empty source list instead of calling the LLM or
raising. -/
theorem rag_degraded_responses (env : RAGService.Env) (query : PyStr) :
    (RAGService.dedupCandidates
        ((RAGService.retrievedCandidates env (RAGService.enhanced env query).1
            (RAGService.enhanced env query).2.1).1.zip
          (RAGService.retrievedCandidates env (RAGService.enhanced env query).1
            (RAGService.enhanced env query).2.1).2) [] = [] →
      RAGService.getResponse env query = .ok
        (RAGService.noDocsMessage ++
          (if RAGService.is_non_french_query query then RAGService.shortNote
           else ""), [], (RAGService.enhanced env query).2.2)) ∧
    (∀ (sugg : Option PyStr) (fm : List PyMeta) (attempt : Nat),
      RAGService.respondOrGenerate env query sugg [] fm attempt = .ok
        (RAGService.lowRelevanceMessage ++
          (if RAGService.is_non_french_query query then RAGService.shortNote
           else ""), [], sugg)) := by
  constructor
  · intro hempty
    have hbody : RAGService.attemptBody env query (RAGService.enhanced env query).1
        (RAGService.enhanced env query).2.1 (RAGService.enhanced env query).2.2 0 =
        .ok (RAGService.noDocsMessage ++
          (if RAGService.is_non_french_query query then RAGService.shortNote
           else ""), [], (RAGService.enhanced env query).2.2) := by
      unfold RAGService.attemptBody
      simp only [hempty, List.isEmpty_nil, if_true]
    show RAGService.getResponseLoop env query (RAGService.enhanced env query).1
      (RAGService.enhanced env query).2.1 (RAGService.enhanced env query).2.2
      (2 + 1) 0 = _
    exact getResponseLoop_ok env query _ _ _ 2 0 _ hbody
  · intro sugg fm attempt
    rfl

/-- A fully trivial collaborator environment: the vector search finds
nothing, the encoder is unavailable, no entities, trivial enhancer resources,
and a failing LLM. -/
def trivialRAGEnv : RAGService.Env :=
  ⟨fun _ _ => ([], []), .unavailable, fun _ => [],
   ⟨⟨fun _ => true, fun _ => none⟩, ⟨fun _ => true, fun _ => none⟩,
     fun _ => []⟩, fun _ => .error "boom"⟩

set_option maxHeartbeats 1000000 in
/-- Witness for C3 at a concrete input: an empty corpus (the vector search
returns nothing), so deduplication yields zero candidates and the
no-documents response is returned. -/
theorem rag_degraded_responses_witness :
    RAGService.dedupCandidates
      ((RAGService.retrievedCandidates trivialRAGEnv
          (RAGService.enhanced trivialRAGEnv "x".toList).1
          (RAGService.enhanced trivialRAGEnv "x".toList).2.1).1.zip
        (RAGService.retrievedCandidates trivialRAGEnv
          (RAGService.enhanced trivialRAGEnv "x".toList).1
          (RAGService.enhanced trivialRAGEnv "x".toList).2.1).2) [] = [] ∧
    RAGService.getResponse trivialRAGEnv "x".toList = .ok
      (RAGService.noDocsMessage ++
        (if RAGService.is_non_french_query "x".toList then RAGService.shortNote
         else ""), [],
       (RAGService.enhanced trivialRAGEnv "x".toList).2.2) := by
  refine ⟨rfl, ?_⟩
  exact (rag_degraded_responses trivialRAGEnv "x".toList).1 rfl
